import Mathlib

/-!
# YUView: the difference handler (`videoHandlerDifference.cpp`)

A shallow embedding of `videoHandlerDifference` and of the hierarchical search for the
first difference, followed by the properties proved about it.

Conventions of the embedding.

* C++ `int` is `Int`; `/` on `int` is truncating division (`cdiv`).  Image dimensions are far
  below `2^31`, so no arithmetic of the search wraps and no wrap-around is modelled.
* A `frameHandler *` is an optional address (`none` is `NULL`); the objects pointed to live in
  an environment `Env` that maps an address to the object's observable interface.
* By-reference out-parameters (`firstX`, `firstY`, `partIndex`) are threaded explicitly as a
  record `Refs` that goes in and comes out of `hierarchicalPosition`.
* `emit signalHandlerChanged(a, b)` is modelled by returning the list of emitted signals next
  to the new state.
* The recursion of `hierarchicalPosition` is driven by fuel; `none` means the fuel ran out.
-/

namespace YUView

/-! ## Qt value types -/

/-- C++ integer division on `int`: truncation toward zero. -/
def cdiv (a b : Int) : Int := Int.tdiv a b

/-- The type `QRgb`: an unsigned `0xAARRGGBB` value. -/
abbrev QRgb := Nat

/-- The function `qRed`: `(rgb >> 16) & 0xff`. -/
def qRed (rgb : QRgb) : Int := ((rgb / 65536) % 256 : Nat)

/-- The function `qGreen`: `(rgb >> 8) & 0xff`. -/
def qGreen (rgb : QRgb) : Int := ((rgb / 256) % 256 : Nat)

/-- The function `qBlue`: `rgb & 0xff`. -/
def qBlue (rgb : QRgb) : Int := ((rgb % 256 : Nat) : Int)

/-- The class `QSize`: a width and a height, both `int`. -/
structure QSize where
  width : Int
  height : Int
  deriving DecidableEq, Repr

/-- The class `QPoint`. -/
structure QPoint where
  x : Int
  y : Int
  deriving DecidableEq, Repr

/-- The class `QImage`: its dimensions (never negative) and its pixel store. -/
structure QImage where
  cols : Nat
  rows : Nat
  data : Int → Int → QRgb

/-- The method `QImage::width()`. -/
def QImage.width (img : QImage) : Int := img.cols

/-- The method `QImage::height()`. -/
def QImage.height (img : QImage) : Int := img.rows

/-- The method `QImage::valid(x, y)`: the coordinate lies inside the image. -/
def QImage.valid (img : QImage) (x y : Int) : Bool :=
  decide (0 ≤ x) && decide (x < img.width) && decide (0 ≤ y) && decide (y < img.height)

/-- The method `QImage::pixel(QPoint(x, y))`.  For a coordinate outside the image Qt warns
"coordinate out of range" and returns the constant `12345`. -/
def QImage.pixel (img : QImage) (x y : Int) : QRgb :=
  if img.valid x y then img.data x y else 12345

/-- The class `QPixmap`, reduced to the image that `toImage()` yields. -/
structure QPixmap where
  toImage : QImage

/-- The struct `infoItem`: a name and a text. -/
structure infoItem where
  name : String
  text : String
  deriving DecidableEq, Repr

/-- The function `QString::number(int)`: the decimal representation. -/
def QString.number (n : Int) : String := toString n

/-- The type `ValuePairList`: a list of labelled values. -/
abbrev ValuePairList := List (String × String)

/-! ## The collaborators -/

/-- A `frameHandler *`: `none` is `NULL`, `some a` points to the object at address `a`. -/
abbrev Ptr := Option Nat

/-- Modelled from the spec: the interface of `frameHandler` (the spec's `PixelSource`), whose
declaration is not part of the sources at hand.  `calculateDifference` receives the other
handler, the frame index, the (cleared) descriptor list passed by reference, the
amplification factor and the mark flag, and yields the rendered pixmap with the descriptor
list it filled. -/
structure frameHandler where
  isFormatValid : Bool
  getFrameSize : QSize
  calculateDifference : Ptr → Int → List infoItem → Int → Bool → QPixmap × List infoItem
  getPixelValues : QPoint → Int → Ptr → ValuePairList

/-- The objects the pointers refer to. -/
abbrev Env := Nat → frameHandler

/-- The enum `CodingOrder`, kept with its underlying integer (the code casts a combo box
index to it). -/
structure CodingOrder where
  val : Int
  deriving DecidableEq, Repr

/-- The enumerator `CodingOrder_HEVC`, the first and only one. -/
def CodingOrder_HEVC : CodingOrder := ⟨0⟩

/-- The two `bool` arguments of an emitted `signalHandlerChanged`, in argument order. -/
abbrev Signal := Bool × Bool

/-! ## The handler -/

/-- The state of a `videoHandlerDifference`: its own members and the ones it uses from its
base classes (`frameSize`, `currentFrame`, `currentFrameIdx`). -/
structure videoHandlerDifference where
  inputVideo0 : Ptr
  inputVideo1 : Ptr
  frameSize : QSize
  currentFrame : QPixmap
  currentFrameIdx : Int
  differenceInfoList : List infoItem
  markDifference : Bool
  amplificationFactor : Int
  codingOrder : CodingOrder

/-- The method `videoHandlerDifference::inputsValid`. -/
def inputsValid (env : Env) (self : videoHandlerDifference) : Bool :=
  match self.inputVideo0, self.inputVideo1 with
  | some a, some b =>
    if !(env a).isFormatValid || !(env b).isFormatValid then false else true
  | _, _ => false

/-- Modelled from the spec: `frameHandler::setFrameSize`, a base-class method whose body is
not part of the sources at hand; it stores the engine's frame size. -/
def setFrameSize (self : videoHandlerDifference) (size : QSize) : videoHandlerDifference :=
  { self with frameSize := size }

/-- The method `videoHandlerDifference::loadFrame`. -/
def loadFrame (env : Env) (self : videoHandlerDifference) (frameIndex : Int) :
    videoHandlerDifference × List Signal :=
  if !inputsValid env self then (self, [])
  else
    match self.inputVideo0 with
    | none => (self, [])
    | some a =>
      let r := (env a).calculateDifference self.inputVideo1 frameIndex []
        self.amplificationFactor self.markDifference
      ({ self with differenceInfoList := r.2, currentFrame := r.1,
                   currentFrameIdx := frameIndex }, [(false, false)])

/-- The method `videoHandlerDifference::setInputVideos`. -/
def setInputVideos (env : Env) (self : videoHandlerDifference) (childVideo0 childVideo1 : Ptr) :
    videoHandlerDifference × List Signal :=
  if self.inputVideo0 ≠ childVideo0 ∨ self.inputVideo1 ≠ childVideo1 then
    let s1 := { self with inputVideo0 := childVideo0, inputVideo1 := childVideo1 }
    let s2 :=
      if inputsValid env s1 then
        match childVideo0, childVideo1 with
        | some a, some b =>
          let size0 := (env a).getFrameSize
          let size1 := (env b).getFrameSize
          let diffSize : QSize :=
            ⟨min size0.width size1.width, min size0.height size1.height⟩
          setFrameSize s1 diffSize
        | _, _ => s1
      else s1
    (s2, [(true, false)])
  else (self, [])

/-- The method `videoHandlerDifference::getPixelValues`. -/
def getPixelValues (env : Env) (self : videoHandlerDifference) (pixelPos : QPoint)
    (frameIdx : Int) (_item2 : Ptr) : ValuePairList :=
  if !inputsValid env self then []
  else
    match self.inputVideo0 with
    | none => []
    | some a => (env a).getPixelValues pixelPos frameIdx self.inputVideo1

/-- The control that caused `slotDifferenceControlChanged` to be called (`QObject::sender()`). -/
inductive Sender where
  | markDifferenceCheckBox
  | codingOrderComboBox
  | amplificationFactorSpinBox
  | other
  deriving DecidableEq, Repr

/-- The values read from the three controls of the properties widget. -/
structure Ui where
  markDifferenceChecked : Bool
  codingOrderCurrentIndex : Int
  amplificationFactorValue : Int

/-- The method `videoHandlerDifference::slotDifferenceControlChanged`. -/
def slotDifferenceControlChanged (ui : Ui) (sender : Sender) (self : videoHandlerDifference) :
    videoHandlerDifference × List Signal :=
  match sender with
  | Sender.markDifferenceCheckBox =>
    ({ self with markDifference := ui.markDifferenceChecked, currentFrameIdx := -1 },
      [(true, false)])
  | Sender.codingOrderComboBox =>
    ({ self with codingOrder := ⟨ui.codingOrderCurrentIndex⟩ }, [(false, false)])
  | Sender.amplificationFactorSpinBox =>
    ({ self with amplificationFactor := ui.amplificationFactorValue, currentFrameIdx := -1 },
      [(true, false)])
  | Sender.other => (self, [])

/-! ## The hierarchical search -/

/-- The out-parameters `firstX`, `firstY`, `partIndex` of `hierarchicalPosition`. -/
structure Refs where
  firstX : Int
  firstY : Int
  partIndex : Int
  deriving DecidableEq, Repr

/-- The test applied to one pixel of a leaf: black is "no difference" when differences are
marked, the gray `(130, 130, 130)` otherwise. -/
def isDifference (markDifference : Bool) (rgb : QRgb) : Bool :=
  if markDifference then
    qRed rgb != 0 || qGreen rgb != 0 || qBlue rgb != 0
  else
    qRed rgb != 130 || qGreen rgb != 130 || qBlue rgb != 130

/-- The coordinates visited by the two loops of a leaf, in the order they are visited:
`subX` from `x` to `x+3` outside, `subY` from `y` to `y+3` inside. -/
def leafPixels (x y : Int) : List (Int × Int) :=
  (List.range 4).flatMap fun (i : Nat) =>
    (List.range 4).map fun (j : Nat) => (x + (i : Int), y + (j : Int))

/-- The leaf loops: `true` as soon as a visited pixel is a difference. -/
def leafHasDifference (markDifference : Bool) (diffImg : QImage) (x y : Int) : Bool :=
  (leafPixels x y).any fun p => isDifference markDifference (diffImg.pixel p.1 p.2)

/-- The method `videoHandlerDifference::hierarchicalPosition`.  The result is the returned
`bool` with the values of the three reference parameters at return. -/
def hierarchicalPosition (self : videoHandlerDifference) (diffImg : QImage) :
    Nat → Int → Int → Int → Refs → Option (Bool × Refs)
  | 0, _, _, _, _ => none
  | fuel + 1, x, y, blockSize, r =>
    if x ≥ self.frameSize.width ∨ y ≥ self.frameSize.height then
      some (false, r)
    else if blockSize = 4 then
      if leafHasDifference self.markDifference diffImg x y then
        some (true, { r with firstX := x, firstY := y })
      else
        some (false, { r with partIndex := r.partIndex + 1 })
    else
      let half := cdiv blockSize 2
      match hierarchicalPosition self diffImg fuel x y half r with
      | none => none
      | some (true, r1) => some (true, r1)
      | some (false, r1) =>
      match hierarchicalPosition self diffImg fuel (x + half) y half r1 with
      | none => none
      | some (true, r2) => some (true, r2)
      | some (false, r2) =>
      match hierarchicalPosition self diffImg fuel x (y + half) half r2 with
      | none => none
      | some (true, r3) => some (true, r3)
      | some (false, r3) =>
      match hierarchicalPosition self diffImg fuel (x + half) (y + half) half r3 with
      | none => none
      | some (true, r4) => some (true, r4)
      | some (false, r4) => some (false, r4)

/-- The LCU positions `(x, y)` in the order the two `for` loops of
`reportFirstDifferencePosition` visit them: `y` outside, `x` inside. -/
def lcuOrder (widthLCU heightLCU : Int) : List (Int × Int) :=
  (List.range heightLCU.toNat).flatMap fun (y : Nat) =>
    (List.range widthLCU.toNat).map fun (x : Nat) => ((x : Int), (y : Int))

/-- The body of the two `for` loops over the LCUs: the first LCU in which
`hierarchicalPosition` finds a difference gives the LCU index and the reference parameters.
The locals `firstX` and `firstY` are declared without a value in the source; they are read
only after `hierarchicalPosition` returned `true`, which has assigned both. -/
def lcuLoop (self : videoHandlerDifference) (diffImg : QImage) (fuel : Nat) (widthLCU : Int) :
    List (Int × Int) → Option (Option (Int × Refs))
  | [] => some none
  | (x, y) :: rest =>
    match hierarchicalPosition self diffImg fuel (x * 64) (y * 64) 64 ⟨0, 0, 0⟩ with
    | none => none
    | some (true, r) => some (some (y * widthLCU + x, r))
    | some (false, _) => lcuLoop self diffImg fuel widthLCU rest

/-- The method `videoHandlerDifference::reportFirstDifferencePosition`; the result is the
info list at return. -/
def reportFirstDifferencePosition (env : Env) (self : videoHandlerDifference) (fuel : Nat)
    (infoList : List infoItem) : Option (List infoItem) :=
  if !inputsValid env self then some infoList
  else
    let diffImg := self.currentFrame.toImage
    if diffImg.width ≠ self.frameSize.width ∨ diffImg.height ≠ self.frameSize.height then
      some infoList
    else
      let identical := infoList ++ [infoItem.mk "Difference" "Frames are identical"]
      if self.codingOrder = CodingOrder_HEVC then
        let widthLCU := cdiv (self.frameSize.width + 63) 64
        let heightLCU := cdiv (self.frameSize.height + 63) 64
        match lcuLoop self diffImg fuel widthLCU (lcuOrder widthLCU heightLCU) with
        | none => none
        | some (some (lcu, r)) =>
          some (infoList ++
            [infoItem.mk "First Difference LCU" (QString.number lcu),
             infoItem.mk "First Difference X" (QString.number r.firstX),
             infoItem.mk "First Difference Y" (QString.number r.firstY),
             infoItem.mk "First Difference partIndex" (QString.number r.partIndex)])
        | some none => some identical
      else some identical

/-! ## The search with a record of the pixels it reads -/

/-- The leaf loops over the coordinates `l` with the list of the coordinates passed to
`diffImg.pixel`, in order: the loops return at the first pixel that is a difference. -/
def leafTrace (markDifference : Bool) (diffImg : QImage) :
    List (Int × Int) → Bool × List (Int × Int)
  | [] => (false, [])
  | p :: rest =>
    if isDifference markDifference (diffImg.pixel p.1 p.2) then (true, [p])
    else ((leafTrace markDifference diffImg rest).1,
      p :: (leafTrace markDifference diffImg rest).2)

/-- The method `hierarchicalPosition` with, as a third result, the coordinates it passes to
`diffImg.pixel`, in order. -/
def hierarchicalPositionTrace (self : videoHandlerDifference) (diffImg : QImage) :
    Nat → Int → Int → Int → Refs → Option (Bool × Refs × List (Int × Int))
  | 0, _, _, _, _ => none
  | fuel + 1, x, y, blockSize, r =>
    if x ≥ self.frameSize.width ∨ y ≥ self.frameSize.height then
      some (false, r, [])
    else if blockSize = 4 then
      if (leafTrace self.markDifference diffImg (leafPixels x y)).1 then
        some (true, { r with firstX := x, firstY := y },
          (leafTrace self.markDifference diffImg (leafPixels x y)).2)
      else
        some (false, { r with partIndex := r.partIndex + 1 },
          (leafTrace self.markDifference diffImg (leafPixels x y)).2)
    else
      let half := cdiv blockSize 2
      match hierarchicalPositionTrace self diffImg fuel x y half r with
      | none => none
      | some (true, r1, t1) => some (true, r1, t1)
      | some (false, r1, t1) =>
      match hierarchicalPositionTrace self diffImg fuel (x + half) y half r1 with
      | none => none
      | some (true, r2, t2) => some (true, r2, t1 ++ t2)
      | some (false, r2, t2) =>
      match hierarchicalPositionTrace self diffImg fuel x (y + half) half r2 with
      | none => none
      | some (true, r3, t3) => some (true, r3, t1 ++ t2 ++ t3)
      | some (false, r3, t3) =>
      match hierarchicalPositionTrace self diffImg fuel (x + half) (y + half) half r3 with
      | none => none
      | some (true, r4, t4) => some (true, r4, t1 ++ t2 ++ t3 ++ t4)
      | some (false, r4, t4) => some (false, r4, t1 ++ t2 ++ t3 ++ t4)

/-- The loop over the LCUs with the coordinates read and the number of LCUs on which
`hierarchicalPosition` was called. -/
def lcuLoopTrace (self : videoHandlerDifference) (diffImg : QImage) (fuel : Nat)
    (widthLCU : Int) :
    List (Int × Int) → Option (Option (Int × Refs) × List (Int × Int) × Nat)
  | [] => some (none, [], 0)
  | (x, y) :: rest =>
    match hierarchicalPositionTrace self diffImg fuel (x * 64) (y * 64) 64 ⟨0, 0, 0⟩ with
    | none => none
    | some (true, r, t) => some (some (y * widthLCU + x, r), t, 1)
    | some (false, _, t) =>
      match lcuLoopTrace self diffImg fuel widthLCU rest with
      | none => none
      | some (res, t', n) => some (res, t ++ t', n + 1)

/-- The method `reportFirstDifferencePosition` with the coordinates read from the difference
image and the number of LCUs visited. -/
def reportFirstDifferencePositionTrace (env : Env) (self : videoHandlerDifference)
    (fuel : Nat) (infoList : List infoItem) :
    Option (List infoItem × List (Int × Int) × Nat) :=
  if !inputsValid env self then some (infoList, [], 0)
  else
    let diffImg := self.currentFrame.toImage
    if diffImg.width ≠ self.frameSize.width ∨ diffImg.height ≠ self.frameSize.height then
      some (infoList, [], 0)
    else
      let identical := infoList ++ [infoItem.mk "Difference" "Frames are identical"]
      if self.codingOrder = CodingOrder_HEVC then
        let widthLCU := cdiv (self.frameSize.width + 63) 64
        let heightLCU := cdiv (self.frameSize.height + 63) 64
        match lcuLoopTrace self diffImg fuel widthLCU (lcuOrder widthLCU heightLCU) with
        | none => none
        | some (some (lcu, r), t, n) =>
          some (infoList ++
            [infoItem.mk "First Difference LCU" (QString.number lcu),
             infoItem.mk "First Difference X" (QString.number r.firstX),
             infoItem.mk "First Difference Y" (QString.number r.firstY),
             infoItem.mk "First Difference partIndex" (QString.number r.partIndex)], t, n)
        | some (none, t, n) => some (identical, t, n)
      else some (identical, [], 0)

/-- The coordinates read by a sequential scan of a list of leaves. -/
def scanTrace (W H : Int) (markDifference : Bool) (diffImg : QImage) :
    List (Int × Int) → List (Int × Int)
  | [] => []
  | p :: rest =>
    if p.1 ≥ W ∨ p.2 ≥ H then scanTrace W H markDifference diffImg rest
    else if (leafTrace markDifference diffImg (leafPixels p.1 p.2)).1 then
      (leafTrace markDifference diffImg (leafPixels p.1 p.2)).2
    else (leafTrace markDifference diffImg (leafPixels p.1 p.2)).2 ++
      scanTrace W H markDifference diffImg rest

/-! ## Specification-side notions used to state and prove the properties -/

/-- The no-difference value of a colour channel in the active mode: `0` when differences are
marked, `130` otherwise. -/
def baseline (markDifference : Bool) : Int := if markDifference then 0 else 130

/-- A pixel value equals the no-difference baseline of the mode in its three channels. -/
def isBaseline (markDifference : Bool) (rgb : QRgb) : Prop :=
  qRed rgb = baseline markDifference ∧ qGreen rgb = baseline markDifference ∧
    qBlue rgb = baseline markDifference

instance (markDifference : Bool) (rgb : QRgb) : Decidable (isBaseline markDifference rgb) := by
  unfold isBaseline
  infer_instance

/-- The top-left corners of the 4x4 leaves of the block of size `4 * 2^k` at `(x, y)`, in the
recursive quadrant order top-left, top-right, bottom-left, bottom-right. -/
def zLeaves : Nat → Int → Int → List (Int × Int)
  | 0, x, y => [(x, y)]
  | k + 1, x, y =>
    zLeaves k x y ++ zLeaves k (x + 4 * 2 ^ k) y ++ zLeaves k x (y + 4 * 2 ^ k) ++
      zLeaves k (x + 4 * 2 ^ k) (y + 4 * 2 ^ k)

/-- A leaf whose top-left corner lies inside a frame of size `W x H`. -/
def leafInFrame (W H : Int) (p : Int × Int) : Bool := decide (p.1 < W) && decide (p.2 < H)

/-- A leaf inside the frame in which the leaf loops find a difference. -/
def leafDirty (W H : Int) (markDifference : Bool) (diffImg : QImage) (p : Int × Int) : Bool :=
  leafInFrame W H p && leafHasDifference markDifference diffImg p.1 p.2

/-- The number of leaves of a list that lie inside the frame. -/
def countInFrame (W H : Int) (l : List (Int × Int)) : Int :=
  ((l.filter (leafInFrame W H)).length : Int)

/-- A sequential scan of a list of leaves with the counter threaded through: a leaf outside
the frame is skipped, a leaf with a difference ends the scan, a clean leaf is counted. -/
def scanLeaves (W H : Int) (markDifference : Bool) (diffImg : QImage) :
    List (Int × Int) → Refs → Bool × Refs
  | [], r => (false, r)
  | p :: rest, r =>
    if p.1 ≥ W ∨ p.2 ≥ H then scanLeaves W H markDifference diffImg rest r
    else if leafHasDifference markDifference diffImg p.1 p.2 then
      (true, { r with firstX := p.1, firstY := p.2 })
    else scanLeaves W H markDifference diffImg rest { r with partIndex := r.partIndex + 1 }

/-- The raster index `y * widthLCU + x` of the LCU at column `x` and row `y`. -/
def lcuIndex (widthLCU : Int) (c : Int × Int) : Int := c.2 * widthLCU + c.1

/-- The LCU at column `c.1`, row `c.2` has a leaf inside the frame with a difference. -/
def lcuDirty (W H : Int) (markDifference : Bool) (diffImg : QImage) (c : Int × Int) : Bool :=
  (zLeaves 4 (c.1 * 64) (c.2 * 64)).any (leafDirty W H markDifference diffImg)

/-- The four entries appended when a first difference is found. -/
def locationReport (lcu firstX firstY partIndex : Int) : List infoItem :=
  [infoItem.mk "First Difference LCU" (QString.number lcu),
   infoItem.mk "First Difference X" (QString.number firstX),
   infoItem.mk "First Difference Y" (QString.number firstY),
   infoItem.mk "First Difference partIndex" (QString.number partIndex)]

/-- The single entry appended when no difference is found. -/
def identicalReport : List infoItem := [infoItem.mk "Difference" "Frames are identical"]

/-- The pixel `(px, py)` lies inside a frame of size `W x H` and differs from the baseline of
the mode in at least one channel. -/
def pixelDirty (W H : Int) (markDifference : Bool) (diffImg : QImage) (px py : Int) : Prop :=
  0 ≤ px ∧ px < W ∧ 0 ≤ py ∧ py < H ∧ ¬ isBaseline markDifference (diffImg.pixel px py)

instance (W H : Int) (markDifference : Bool) (diffImg : QImage) (px py : Int) :
    Decidable (pixelDirty W H markDifference diffImg px py) := by
  unfold pixelDirty
  infer_instance

/-- The 4x4 leaf with top-left corner `q` contains a pixel of the frame off the baseline. -/
def leafHasDirtyPixel (W H : Int) (markDifference : Bool) (diffImg : QImage) (q : Int × Int) :
    Prop :=
  ∃ px py : Int, q.1 ≤ px ∧ px < q.1 + 4 ∧ q.2 ≤ py ∧ py < q.2 + 4 ∧
    pixelDirty W H markDifference diffImg px py

/-- The search as the design note of the spec describes it: a pure function that returns
`(found, location, leavesScannedClean)` for a block, where the caller adds up the clean-leaf
counts of the quadrants it visited.  Fuel drives the recursion as in `hierarchicalPosition`. -/
def hierarchicalPositionPure (W H : Int) (markDifference : Bool) (diffImg : QImage) :
    Nat → Int → Int → Int → Option (Bool × Option (Int × Int) × Int)
  | 0, _, _, _ => none
  | fuel + 1, x, y, size =>
    if x ≥ W ∨ y ≥ H then some (false, none, 0)
    else if size = 4 then
      if leafHasDifference markDifference diffImg x y then some (true, some (x, y), 0)
      else some (false, none, 1)
    else
      let half := cdiv size 2
      match hierarchicalPositionPure W H markDifference diffImg fuel x y half with
      | none => none
      | some (true, loc, n1) => some (true, loc, n1)
      | some (false, _, n1) =>
      match hierarchicalPositionPure W H markDifference diffImg fuel (x + half) y half with
      | none => none
      | some (true, loc, n2) => some (true, loc, n1 + n2)
      | some (false, _, n2) =>
      match hierarchicalPositionPure W H markDifference diffImg fuel x (y + half) half with
      | none => none
      | some (true, loc, n3) => some (true, loc, n1 + n2 + n3)
      | some (false, _, n3) =>
      match hierarchicalPositionPure W H markDifference diffImg fuel (x + half) (y + half)
        half with
      | none => none
      | some (true, loc, n4) => some (true, loc, n1 + n2 + n3 + n4)
      | some (false, _, n4) => some (false, none, n1 + n2 + n3 + n4)

/-- The references at return that correspond to a result of the pure search, for a call that
started with the references `r`: the location is written when one was found, and the counter
has advanced by the count of clean leaves. -/
def threadResult (r : Refs) (res : Bool × Option (Int × Int) × Int) : Bool × Refs :=
  match res with
  | (true, some (a, b), n) => (true, ⟨a, b, r.partIndex + n⟩)
  | (found, _, n) => (found, ⟨r.firstX, r.firstY, r.partIndex + n⟩)

/-- The Z-order (Morton) index of the leaf at column `lx` and row `ly` of an LCU, both in
0..15: bit `i` of `lx` and bit `i` of `ly` give the base-4 digit `i`. -/
def mortonIndex (lx ly : Int) : Int :=
  ∑ i ∈ Finset.range 4, (lx / 2 ^ i % 2 + 2 * (ly / 2 ^ i % 2)) * 4 ^ i

/-- The position of the leaf at column `i` and row `j` of a block of `2^k x 2^k` leaves in
the recursive quadrant order, by descent into the quadrant that holds the leaf. -/
def quadIndex : Nat → Int → Int → Int
  | 0, _, _ => 0
  | k + 1, i, j =>
    ((if i < 2 ^ k then 0 else 1) + 2 * (if j < 2 ^ k then 0 else 1)) * 4 ^ k +
      quadIndex k (if i < 2 ^ k then i else i - 2 ^ k) (if j < 2 ^ k then j else j - 2 ^ k)

/-! ## Concrete instances -/

/-- The opaque gray `(130, 130, 130)`, value `0xFF828282`. -/
def grayPixel : QRgb := 4286743170

/-- The opaque black, value `0xFF000000`. -/
def blackPixel : QRgb := 4278190080

/-- The opaque white, value `0xFFFFFFFF`. -/
def whitePixel : QRgb := 4294967295

/-- A valid source of the given size whose difference image is gray everywhere. -/
def exampleSource (w h : Nat) : frameHandler where
  isFormatValid := true
  getFrameSize := ⟨w, h⟩
  calculateDifference := fun _ _ l _ _ => (⟨⟨w, h, fun _ _ => grayPixel⟩⟩, l)
  getPixelValues := fun _ _ _ => [("Y", "0")]

/-- An environment with a 16x8 source at address 0, an 8x16 source at address 1 and invalid
sources elsewhere. -/
def exampleEnv : Env := fun a =>
  if a = 0 then exampleSource 16 8
  else if a = 1 then exampleSource 8 16
  else { exampleSource 0 0 with isFormatValid := false }

/-- A handler on the sources 0 and 1 whose current frame is the given image and whose frame
size is the size of that image. -/
def exampleHandler (cols rows : Nat) (mark : Bool) (data : Int → Int → QRgb) :
    videoHandlerDifference where
  inputVideo0 := some 0
  inputVideo1 := some 1
  frameSize := ⟨cols, rows⟩
  currentFrame := ⟨⟨cols, rows, data⟩⟩
  currentFrameIdx := 0
  differenceInfoList := []
  markDifference := mark
  amplificationFactor := 1
  codingOrder := CodingOrder_HEVC

/-- An image content that is gray except for one white pixel at `(px, py)`. -/
def onePixel (px py : Int) : Int → Int → QRgb := fun x y =>
  if x = px ∧ y = py then whitePixel else grayPixel

/-- A handler as the constructor leaves it (`markDifference = false`, `amplificationFactor =
1`, `codingOrder = CodingOrder_HEVC`), before any input is set: both inputs `NULL`, an invalid
frame size and an empty current frame. -/
def freshHandler : videoHandlerDifference where
  inputVideo0 := none
  inputVideo1 := none
  frameSize := ⟨-1, -1⟩
  currentFrame := ⟨⟨0, 0, fun _ _ => 0⟩⟩
  currentFrameIdx := -1
  differenceInfoList := []
  markDifference := false
  amplificationFactor := 1
  codingOrder := CodingOrder_HEVC

/-- An image content with the colours of `onePixel px py` and a zero alpha channel: the gray
`0x00828282` except for the white `0x00FFFFFF` at `(px, py)`. -/
def onePixelClear (px py : Int) : Int → Int → QRgb := fun x y =>
  if x = px ∧ y = py then 16777215 else 8553090

/-! ## Lemmas on the search -/

theorem cdiv_of_nonneg {a b : Int} (ha : 0 ≤ a) (hb : 0 ≤ b) : cdiv a b = a / b :=
  Int.tdiv_eq_ediv ha hb

theorem cdiv_block (k : Nat) : cdiv (4 * 2 ^ (k + 1)) 2 = 4 * 2 ^ k := by
  have h : (0 : Int) ≤ 4 * 2 ^ (k + 1) := by positivity
  rw [cdiv_of_nonneg h (by norm_num), pow_succ]
  omega

theorem block_ne_four (k : Nat) : (4 : Int) * 2 ^ (k + 1) ≠ 4 := by
  have h : (0 : Int) < 2 ^ k := by positivity
  rw [pow_succ]
  omega

theorem isDifference_eq_false_iff (m : Bool) (rgb : QRgb) :
    isDifference m rgb = false ↔ isBaseline m rgb := by
  cases m <;> simp [isDifference, isBaseline, baseline, and_assoc]

theorem isDifference_eq_true_iff (m : Bool) (rgb : QRgb) :
    isDifference m rgb = true ↔ ¬ isBaseline m rgb := by
  rw [← isDifference_eq_false_iff]
  cases isDifference m rgb <;> simp

theorem leafPixels_eq (x y : Int) :
    leafPixels x y =
      [(x + 0, y + 0), (x + 0, y + 1), (x + 0, y + 2), (x + 0, y + 3),
       (x + 1, y + 0), (x + 1, y + 1), (x + 1, y + 2), (x + 1, y + 3),
       (x + 2, y + 0), (x + 2, y + 1), (x + 2, y + 2), (x + 2, y + 3),
       (x + 3, y + 0), (x + 3, y + 1), (x + 3, y + 2), (x + 3, y + 3)] := rfl

theorem leafHasDifference_iff (m : Bool) (img : QImage) (x y : Int) :
    leafHasDifference m img x y = true ↔
      ∃ i j : Int, 0 ≤ i ∧ i < 4 ∧ 0 ≤ j ∧ j < 4 ∧
        isDifference m (img.pixel (x + i) (y + j)) = true := by
  unfold leafHasDifference
  rw [leafPixels_eq]
  simp only [List.any_cons, List.any_nil, Bool.or_false, Bool.or_eq_true]
  constructor
  · intro h
    rcases h with h | h | h | h | h | h | h | h | h | h | h | h | h | h | h | h
    all_goals exact ⟨_, _, by norm_num, by norm_num, by norm_num, by norm_num, h⟩
  · rintro ⟨i, j, hi0, hi, hj0, hj, hp⟩
    interval_cases i <;> interval_cases j <;>
      simp only [hp, true_or, or_true]

theorem scanLeaves_append (W H : Int) (m : Bool) (img : QImage) (l1 l2 : List (Int × Int))
    (r : Refs) :
    scanLeaves W H m img (l1 ++ l2) r =
      if (scanLeaves W H m img l1 r).1 then scanLeaves W H m img l1 r
      else scanLeaves W H m img l2 (scanLeaves W H m img l1 r).2 := by
  induction l1 generalizing r with
  | nil => simp [scanLeaves]
  | cons p rest ih =>
    simp only [List.cons_append, scanLeaves]
    split
    · exact ih r
    · split
      · simp
      · exact ih _

theorem zLeaves_ge (k : Nat) (x y : Int) (p : Int × Int) (hp : p ∈ zLeaves k x y) :
    x ≤ p.1 ∧ y ≤ p.2 := by
  induction k generalizing x y with
  | zero =>
    simp only [zLeaves, List.mem_singleton] at hp
    subst hp
    simp
  | succ k ih =>
    have h : (0 : Int) ≤ 4 * 2 ^ k := by positivity
    simp only [zLeaves, List.mem_append] at hp
    rcases hp with ((hp | hp) | hp) | hp
    · exact ih _ _ hp
    · have := ih _ _ hp
      omega
    · have := ih _ _ hp
      omega
    · have := ih _ _ hp
      omega

theorem scanLeaves_out (W H : Int) (m : Bool) (img : QImage) (l : List (Int × Int)) (r : Refs)
    (h : ∀ p ∈ l, p.1 ≥ W ∨ p.2 ≥ H) : scanLeaves W H m img l r = (false, r) := by
  induction l with
  | nil => rfl
  | cons p rest ih =>
    have hp := h p (List.mem_cons_self _ _)
    simp only [scanLeaves, hp, if_true]
    exact ih fun q hq => h q (List.mem_cons_of_mem _ hq)

/-- With fuel above the depth `k`, `hierarchicalPosition` on a block of size `4 * 2^k` is the
sequential scan of the block's leaves in quadrant order. -/
theorem hierarchicalPosition_eq_scan (self : videoHandlerDifference) (img : QImage) (k : Nat) :
    ∀ (fuel : Nat) (x y : Int) (r : Refs), k < fuel →
      hierarchicalPosition self img fuel x y (4 * 2 ^ k) r =
        some (scanLeaves self.frameSize.width self.frameSize.height self.markDifference img
          (zLeaves k x y) r) := by
  induction k with
  | zero =>
    intro fuel x y r hf
    obtain ⟨f, rfl⟩ : ∃ f, fuel = f + 1 := ⟨fuel - 1, by omega⟩
    simp only [hierarchicalPosition, pow_zero, mul_one, zLeaves, scanLeaves]
    split
    · rfl
    · simp only [if_true]
      split <;> rfl
  | succ k ih =>
    intro fuel x y r hf
    obtain ⟨f, rfl⟩ : ∃ f, fuel = f + 1 := ⟨fuel - 1, by omega⟩
    have hk : k < f := by omega
    simp only [hierarchicalPosition]
    split
    · rename_i hout
      rw [scanLeaves_out]
      intro p hp
      have := zLeaves_ge (k + 1) x y p hp
      omega
    · rw [if_neg (block_ne_four k)]
      simp only [cdiv_block, zLeaves, scanLeaves_append]
      rw [ih f x y r hk]
      rcases h1 : scanLeaves self.frameSize.width self.frameSize.height self.markDifference img
        (zLeaves k x y) r with ⟨_ | _, r1⟩
      · simp only []
        rw [ih f _ _ r1 hk]
        rcases h2 : scanLeaves self.frameSize.width self.frameSize.height self.markDifference
          img (zLeaves k (x + 4 * 2 ^ k) y) r1 with ⟨_ | _, r2⟩
        · simp only []
          rw [ih f _ _ r2 hk]
          rcases h3 : scanLeaves self.frameSize.width self.frameSize.height
            self.markDifference img (zLeaves k x (y + 4 * 2 ^ k)) r2 with ⟨_ | _, r3⟩
          · simp only []
            rw [ih f _ _ r3 hk]
            rcases h4 : scanLeaves self.frameSize.width self.frameSize.height
              self.markDifference img (zLeaves k (x + 4 * 2 ^ k) (y + 4 * 2 ^ k)) r3
              with ⟨_ | _, r4⟩ <;> simp [h3, h4]
          · simp [h3]
        · simp
      · simp

/-- The sequential scan in closed form: it stops at the first leaf of the list that lies in
the frame and has a difference, and the counter has advanced by the number of leaves in the
frame that come before it. -/
theorem scanLeaves_eq (W H : Int) (m : Bool) (img : QImage) (l : List (Int × Int)) (r : Refs) :
    scanLeaves W H m img l r =
      match l.find? (leafDirty W H m img) with
      | none => (false, { r with partIndex := r.partIndex + countInFrame W H l })
      | some p =>
        (true, ⟨p.1, p.2, r.partIndex +
          countInFrame W H (l.takeWhile fun q => !leafDirty W H m img q)⟩) := by
  induction l generalizing r with
  | nil => simp [scanLeaves, countInFrame]
  | cons p rest ih =>
    by_cases hout : p.1 ≥ W ∨ p.2 ≥ H
    · have hin : leafInFrame W H p = false := by
        simp only [leafInFrame, Bool.and_eq_false_imp, decide_eq_true_eq, decide_eq_false_iff_not]
        omega
      have hd : leafDirty W H m img p = false := by simp [leafDirty, hin]
      simp only [scanLeaves, hout, if_true, ih r, List.find?_cons, hd, List.takeWhile_cons,
        Bool.not_false, countInFrame, List.filter_cons, hin]
      rfl
    · have hin : leafInFrame W H p = true := by
        simp only [leafInFrame, Bool.and_eq_true, decide_eq_true_eq]
        omega
      by_cases hdiff : leafHasDifference m img p.1 p.2 = true
      · have hd : leafDirty W H m img p = true := by simp [leafDirty, hin, hdiff]
        simp [scanLeaves, hout, hdiff, List.find?_cons, hd, List.takeWhile_cons, countInFrame]
      · have hd : leafDirty W H m img p = false := by simp [leafDirty, hin, hdiff]
        simp only [scanLeaves, hout, if_false, hdiff, ih, List.find?_cons, hd,
          List.takeWhile_cons, Bool.not_false, countInFrame, List.filter_cons, hin, if_true,
          List.length_cons, Nat.cast_add, Nat.cast_one]
        cases List.find? (leafDirty W H m img) rest with
        | none =>
          simp only [Bool.false_eq_true, if_false, Refs.mk.injEq, Prod.mk.injEq, true_and]
          omega
        | some q =>
          simp only [Bool.false_eq_true, if_false, Refs.mk.injEq, Prod.mk.injEq, true_and]
          omega

theorem scanLeaves_fst (W H : Int) (m : Bool) (img : QImage) (l : List (Int × Int)) (r : Refs) :
    (scanLeaves W H m img l r).1 = l.any (leafDirty W H m img) := by
  rw [scanLeaves_eq]
  cases h : l.find? (leafDirty W H m img) with
  | none =>
    have := List.find?_eq_none.mp h
    simp only []
    symm
    rw [Bool.eq_false_iff]
    intro hany
    obtain ⟨q, hq, hqd⟩ := List.any_eq_true.mp hany
    exact this q hq hqd
  | some p =>
    simp only []
    symm
    exact List.any_eq_true.mpr ⟨p, List.mem_of_find?_eq_some h, List.find?_some h⟩

theorem mem_zLeaves (k : Nat) (x y : Int) (p : Int × Int) :
    p ∈ zLeaves k x y ↔
      ∃ i j : Int, 0 ≤ i ∧ i < 2 ^ k ∧ 0 ≤ j ∧ j < 2 ^ k ∧ p = (x + 4 * i, y + 4 * j) := by
  induction k generalizing x y with
  | zero =>
    simp only [zLeaves, List.mem_singleton, pow_zero]
    constructor
    · rintro rfl
      exact ⟨0, 0, by norm_num, by norm_num, by norm_num, by norm_num, by simp⟩
    · rintro ⟨i, j, hi0, hi, hj0, hj, rfl⟩
      have hi' : i = 0 := by omega
      have hj' : j = 0 := by omega
      subst hi' hj'
      simp
  | succ k ih =>
    have h2 : (2 : Int) ^ (k + 1) = 2 * 2 ^ k := by ring
    have hpos : (0 : Int) < 2 ^ k := by positivity
    simp only [zLeaves, List.mem_append, ih, h2]
    generalize (2 : Int) ^ k = P at *
    constructor
    · rintro (((⟨i, j, hi0, hi, hj0, hj, rfl⟩ | ⟨i, j, hi0, hi, hj0, hj, rfl⟩) |
        ⟨i, j, hi0, hi, hj0, hj, rfl⟩) | ⟨i, j, hi0, hi, hj0, hj, rfl⟩)
      · exact ⟨i, j, by omega, by omega, by omega, by omega, rfl⟩
      · exact ⟨i + P, j, by omega, by omega, by omega, by omega,
          Prod.ext (by simp only []; omega) rfl⟩
      · exact ⟨i, j + P, by omega, by omega, by omega, by omega,
          Prod.ext rfl (by simp only []; omega)⟩
      · exact ⟨i + P, j + P, by omega, by omega, by omega, by omega,
          Prod.ext (by simp only []; omega) (by simp only []; omega)⟩
    · rintro ⟨i, j, hi0, hi, hj0, hj, rfl⟩
      by_cases hiP : i < P <;> by_cases hjP : j < P
      · exact Or.inl (Or.inl (Or.inl ⟨i, j, hi0, hiP, hj0, hjP, rfl⟩))
      · exact Or.inl (Or.inr ⟨i, j - P, hi0, hiP, by omega, by omega,
          Prod.ext rfl (by simp only []; omega)⟩)
      · exact Or.inl (Or.inl (Or.inr ⟨i - P, j, by omega, by omega, hj0, hjP,
          Prod.ext (by simp only []; omega) rfl⟩))
      · exact Or.inr ⟨i - P, j - P, by omega, by omega, by omega, by omega,
          Prod.ext (by simp only []; omega) (by simp only []; omega)⟩

/-- With fuel for the five levels 64, 32, 16, 8, 4 the loop over the LCUs stops at the first
LCU of the list that has a leaf with a difference. -/
theorem lcuLoop_eq (self : videoHandlerDifference) (img : QImage) (fuel : Nat) (widthLCU : Int)
    (hf : 5 ≤ fuel) (l : List (Int × Int)) :
    lcuLoop self img fuel widthLCU l =
      some (match l.find? (lcuDirty self.frameSize.width self.frameSize.height
          self.markDifference img) with
        | none => none
        | some c => some (lcuIndex widthLCU c,
            (scanLeaves self.frameSize.width self.frameSize.height self.markDifference img
              (zLeaves 4 (c.1 * 64) (c.2 * 64)) ⟨0, 0, 0⟩).2)) := by
  have h64 : (64 : Int) = 4 * 2 ^ 4 := by norm_num
  induction l with
  | nil => rfl
  | cons c rest ih =>
    obtain ⟨x, y⟩ := c
    simp only [lcuLoop, List.find?_cons]
    rw [h64, hierarchicalPosition_eq_scan self img 4 fuel _ _ _ (by omega), ← h64]
    have hfst := scanLeaves_fst self.frameSize.width self.frameSize.height self.markDifference
      img (zLeaves 4 (x * 64) (y * 64)) ⟨0, 0, 0⟩
    have hd : lcuDirty self.frameSize.width self.frameSize.height self.markDifference img (x, y)
        = (scanLeaves self.frameSize.width self.frameSize.height self.markDifference img
            (zLeaves 4 (x * 64) (y * 64)) ⟨0, 0, 0⟩).1 := by
      rw [hfst]
      rfl
    rw [hd]
    rcases hs : scanLeaves self.frameSize.width self.frameSize.height self.markDifference img
      (zLeaves 4 (x * 64) (y * 64)) ⟨0, 0, 0⟩ with ⟨_ | _, r1⟩
    · simp only []
      exact ih
    · simp only [lcuIndex, hs]

/-- The report in closed form, for valid inputs, a current frame of the frame size, the HEVC
coding order and fuel for the five levels. -/
theorem report_eq (env : Env) (self : videoHandlerDifference) (fuel : Nat)
    (infoList : List infoItem) (hv : inputsValid env self = true)
    (hw : self.currentFrame.toImage.width = self.frameSize.width)
    (hh : self.currentFrame.toImage.height = self.frameSize.height)
    (hc : self.codingOrder = CodingOrder_HEVC) (hf : 5 ≤ fuel) :
    reportFirstDifferencePosition env self fuel infoList =
      some (infoList ++
        match (lcuOrder (cdiv (self.frameSize.width + 63) 64)
            (cdiv (self.frameSize.height + 63) 64)).find?
            (lcuDirty self.frameSize.width self.frameSize.height self.markDifference
              self.currentFrame.toImage) with
        | none => identicalReport
        | some c =>
          locationReport (lcuIndex (cdiv (self.frameSize.width + 63) 64) c)
            (scanLeaves self.frameSize.width self.frameSize.height self.markDifference
              self.currentFrame.toImage (zLeaves 4 (c.1 * 64) (c.2 * 64)) ⟨0, 0, 0⟩).2.firstX
            (scanLeaves self.frameSize.width self.frameSize.height self.markDifference
              self.currentFrame.toImage (zLeaves 4 (c.1 * 64) (c.2 * 64)) ⟨0, 0, 0⟩).2.firstY
            (scanLeaves self.frameSize.width self.frameSize.height self.markDifference
              self.currentFrame.toImage (zLeaves 4 (c.1 * 64) (c.2 * 64))
                ⟨0, 0, 0⟩).2.partIndex) := by
  unfold reportFirstDifferencePosition
  simp only [hv, Bool.not_true, Bool.false_eq_true, if_false, hw, hh, ne_eq, not_true_eq_false,
    or_self, hc, if_true, lcuLoop_eq self _ fuel _ hf]
  cases (lcuOrder (cdiv (self.frameSize.width + 63) 64)
      (cdiv (self.frameSize.height + 63) 64)).find?
      (lcuDirty self.frameSize.width self.frameSize.height self.markDifference
        self.currentFrame.toImage) with
  | none => rfl
  | some c => rfl

theorem locationReport_ne_identical (infoList : List infoItem) (a b c d : Int) :
    infoList ++ locationReport a b c d ≠ infoList ++ identicalReport := by
  intro h
  have := congrArg List.length h
  simp [locationReport, identicalReport] at this

/-- A leaf aligned to 4 in a frame whose sides are multiples of 4 has a difference exactly
when one of its 16 pixels is a pixel of the frame off the baseline. -/
theorem leafDirty_iff (W H : Int) (m : Bool) (img : QImage) (x y : Int)
    (hW : 4 ∣ W) (hH : 4 ∣ H) (hx : 4 ∣ x) (hy : 4 ∣ y) (hx0 : 0 ≤ x) (hy0 : 0 ≤ y) :
    leafDirty W H m img (x, y) = true ↔
      ∃ px py : Int, x ≤ px ∧ px < x + 4 ∧ y ≤ py ∧ py < y + 4 ∧ pixelDirty W H m img px py := by
  simp only [leafDirty, leafInFrame, Bool.and_eq_true, decide_eq_true_eq, leafHasDifference_iff,
    pixelDirty, ← isDifference_eq_true_iff]
  constructor
  · rintro ⟨⟨hxW, hyH⟩, i, j, hi0, hi, hj0, hj, hd⟩
    exact ⟨x + i, y + j, by omega, by omega, by omega, by omega, by omega, by omega, by omega,
      by omega, hd⟩
  · rintro ⟨px, py, h1, h2, h3, h4, h5, h6, h7, h8, hd⟩
    refine ⟨⟨by omega, by omega⟩, px - x, py - y, by omega, by omega, by omega, by omega, ?_⟩
    have e1 : x + (px - x) = px := by omega
    have e2 : y + (py - y) = py := by omega
    rw [e1, e2]
    exact hd

/-- An LCU of the grid has a leaf with a difference exactly when it contains a pixel of the
frame off the baseline. -/
theorem lcuDirty_iff (W H : Int) (m : Bool) (img : QImage) (c : Int × Int)
    (hW : 4 ∣ W) (hH : 4 ∣ H) (hc1 : 0 ≤ c.1) (hc2 : 0 ≤ c.2) :
    lcuDirty W H m img c = true ↔
      ∃ px py : Int, pixelDirty W H m img px py ∧ px / 64 = c.1 ∧ py / 64 = c.2 := by
  simp only [lcuDirty, List.any_eq_true, mem_zLeaves]
  have h16 : (2 : Int) ^ 4 = 16 := by norm_num
  rw [h16]
  constructor
  · rintro ⟨p, ⟨i, j, hi0, hi, hj0, hj, rfl⟩, hd⟩
    rw [leafDirty_iff W H m img _ _ hW hH (by omega) (by omega) (by omega) (by omega)] at hd
    obtain ⟨px, py, h1, h2, h3, h4, hp⟩ := hd
    exact ⟨px, py, hp, by omega, by omega⟩
  · rintro ⟨px, py, hp, h1, h2⟩
    have hp' := hp
    obtain ⟨hpx0, hpxW, hpy0, hpyH, _⟩ := hp'
    refine ⟨(c.1 * 64 + 4 * (px % 64 / 4), c.2 * 64 + 4 * (py % 64 / 4)),
      ⟨px % 64 / 4, py % 64 / 4, by omega, by omega, by omega, by omega, rfl⟩, ?_⟩
    rw [leafDirty_iff W H m img _ _ hW hH (by omega) (by omega) (by omega) (by omega)]
    exact ⟨px, py, by omega, by omega, by omega, by omega, hp⟩

theorem mem_lcuOrder (wL hL : Int) (c : Int × Int) :
    c ∈ lcuOrder wL hL ↔ 0 ≤ c.1 ∧ c.1 < wL ∧ 0 ≤ c.2 ∧ c.2 < hL := by
  simp only [lcuOrder, List.mem_flatMap, List.mem_map, List.mem_range]
  constructor
  · rintro ⟨y, hy, x, hx, rfl⟩
    simp only []
    omega
  · rintro ⟨h1, h2, h3, h4⟩
    refine ⟨c.2.toNat, by omega, c.1.toNat, by omega, ?_⟩
    rw [Int.toNat_of_nonneg h1, Int.toNat_of_nonneg h3]

/-- The loop order is the order of increasing raster index. -/
theorem lcuOrder_pairwise (wL hL : Int) :
    (lcuOrder wL hL).Pairwise fun a b => lcuIndex wL a < lcuIndex wL b := by
  unfold lcuOrder
  rw [List.pairwise_flatMap]
  constructor
  · intro y _
    rw [List.pairwise_map]
    refine (List.pairwise_lt_range wL.toNat).imp ?_
    intro a b hab
    simp only [lcuIndex]
    omega
  · refine (List.pairwise_lt_range hL.toNat).imp ?_
    intro y1 y2 hy p hp q hq
    simp only [List.mem_map, List.mem_range] at hp hq
    obtain ⟨x1, hx1, rfl⟩ := hp
    obtain ⟨x2, hx2, rfl⟩ := hq
    simp only [lcuIndex]
    have h1 : ((y1 : Int) + 1) * wL ≤ (y2 : Int) * wL :=
      mul_le_mul_of_nonneg_right (by omega) (by omega)
    have h2 : ((y1 : Int) + 1) * wL = (y1 : Int) * wL + wL := by ring
    omega

/-- In a list sorted by a key, the first element with a property has the least key among the
elements with the property. -/
theorem find?_least {α : Type} (key : α → Int) (P : α → Bool) (l : List α) (c : α)
    (hs : l.Pairwise fun a b => key a < key b) (hfind : l.find? P = some c) :
    ∀ d ∈ l, P d = true → key c ≤ key d := by
  obtain ⟨_, as, bs, rfl, has⟩ := List.find?_eq_some.mp hfind
  intro d hd hPd
  rw [List.pairwise_append] at hs
  obtain ⟨_, hcb, _⟩ := hs
  rw [List.pairwise_cons] at hcb
  rcases List.mem_append.mp hd with h | h
  · have := has d h
    simp [hPd] at this
  · rcases List.mem_cons.mp h with h | h
    · rw [h]
    · exact le_of_lt (hcb.1 d h)

theorem ceil_div_64 (W : Int) : (W + 63) / 64 = ⌈(W : ℚ) / 64⌉ := by
  symm
  rw [Int.ceil_eq_iff]
  have h1 : (W + 63) / 64 * 64 ≤ W + 63 := Int.ediv_mul_le _ (by norm_num)
  have h2 : W + 63 < (W + 63) / 64 * 64 + 64 := by omega
  have h1' : (((W + 63) / 64 : Int) : ℚ) * 64 ≤ (W : ℚ) + 63 := by exact_mod_cast h1
  have h2' : (W : ℚ) + 63 < (((W + 63) / 64 : Int) : ℚ) * 64 + 64 := by exact_mod_cast h2
  constructor
  · rw [lt_div_iff₀ (by norm_num)]
    have h3 : (W + 63) / 64 * 64 ≤ W + 63 := h1
    have : ((W + 63) / 64 - 1) * 64 < W := by omega
    have : ((((W + 63) / 64 - 1) * 64 : Int) : ℚ) < (W : ℚ) := by exact_mod_cast this
    push_cast at this
    linarith
  · rw [div_le_iff₀ (by norm_num)]
    have : W ≤ (W + 63) / 64 * 64 := by omega
    exact_mod_cast this

/-- The pixel of the frame at `(px, py)` lies in an LCU of the grid. -/
theorem lcu_of_pixel_mem (W H px py : Int) (h1 : 0 ≤ px) (h2 : px < W) (h3 : 0 ≤ py)
    (h4 : py < H) : (px / 64, py / 64) ∈ lcuOrder (cdiv (W + 63) 64) (cdiv (H + 63) 64) := by
  rw [cdiv_of_nonneg (by omega) (by norm_num), cdiv_of_nonneg (by omega) (by norm_num),
    mem_lcuOrder]
  simp only []
  omega

/-- The outcome of the search over the LCUs: either no LCU of the grid has a pixel of the
frame off the baseline, or the first LCU `c` that has one is found, together with the first
leaf `p` of `c` in quadrant order that has one, and the leaves `pre` before it. -/
theorem search_cases (W H : Int) (m : Bool) (img : QImage) (hW : 4 ∣ W) (hH : 4 ∣ H) :
    ((lcuOrder (cdiv (W + 63) 64) (cdiv (H + 63) 64)).find? (lcuDirty W H m img) = none ∧
      ∀ px py, ¬ pixelDirty W H m img px py) ∨
    ∃ c pre p post,
      (lcuOrder (cdiv (W + 63) 64) (cdiv (H + 63) 64)).find? (lcuDirty W H m img) = some c ∧
      c ∈ lcuOrder (cdiv (W + 63) 64) (cdiv (H + 63) 64) ∧
      (∀ px py, pixelDirty W H m img px py →
        lcuIndex (cdiv (W + 63) 64) c ≤ lcuIndex (cdiv (W + 63) 64) (px / 64, py / 64)) ∧
      zLeaves 4 (c.1 * 64) (c.2 * 64) = pre ++ p :: post ∧
      (∀ q ∈ pre, leafDirty W H m img q = false) ∧
      leafDirty W H m img p = true ∧
      scanLeaves W H m img (zLeaves 4 (c.1 * 64) (c.2 * 64)) ⟨0, 0, 0⟩ =
        (true, ⟨p.1, p.2, countInFrame W H pre⟩) := by
  cases hfind : (lcuOrder (cdiv (W + 63) 64) (cdiv (H + 63) 64)).find? (lcuDirty W H m img) with
  | none =>
    left
    refine ⟨rfl, ?_⟩
    intro px py hp
    have hp' := hp
    obtain ⟨h1, h2, h3, h4, _⟩ := hp'
    have hmem := lcu_of_pixel_mem W H px py h1 h2 h3 h4
    have hcl := List.find?_eq_none.mp hfind _ hmem
    apply hcl
    rw [lcuDirty_iff W H m img _ hW hH (by simp only []; omega) (by simp only []; omega)]
    exact ⟨px, py, hp, rfl, rfl⟩
  | some c =>
    right
    have hc := List.find?_some hfind
    have hcmem := List.mem_of_find?_eq_some hfind
    have hleast := find?_least (lcuIndex (cdiv (W + 63) 64)) _ _ c (lcuOrder_pairwise _ _) hfind
    have hany : (zLeaves 4 (c.1 * 64) (c.2 * 64)).any (leafDirty W H m img) = true := hc
    cases hleaf : (zLeaves 4 (c.1 * 64) (c.2 * 64)).find? (leafDirty W H m img) with
    | none =>
      exfalso
      obtain ⟨q, hq, hqd⟩ := List.any_eq_true.mp hany
      exact List.find?_eq_none.mp hleaf q hq hqd
    | some p =>
      obtain ⟨hpd, as, bs, hsplit, has⟩ := List.find?_eq_some.mp hleaf
      have has' : ∀ q ∈ as, leafDirty W H m img q = false := by
        intro q hq
        have := has q hq
        simpa using this
      refine ⟨c, as, p, bs, rfl, hcmem, ?_, hsplit, has', hpd, ?_⟩
      · intro px py hp
        have hp' := hp
        obtain ⟨h1, h2, h3, h4, _⟩ := hp'
        apply hleast _ (lcu_of_pixel_mem W H px py h1 h2 h3 h4)
        rw [lcuDirty_iff W H m img _ hW hH (by simp only []; omega) (by simp only []; omega)]
        exact ⟨px, py, hp, rfl, rfl⟩
      · rw [scanLeaves_eq, hleaf]
        simp only [zero_add, Prod.mk.injEq, true_and, Refs.mk.injEq]
        congr 1
        rw [hsplit, List.takeWhile_append_of_pos (by
          intro q hq
          simp [has' q hq])]
        simp [List.takeWhile_cons, hpd]

theorem pixel_in_range (img : QImage) (x y : Int)
    (h : 0 ≤ x ∧ x < img.width ∧ 0 ≤ y ∧ y < img.height) : img.pixel x y = img.data x y := by
  simp [QImage.pixel, QImage.valid, h]

/-- The leaves of an LCU of the grid are aligned to 4 and lie in the LCU. -/
theorem zLeaves_lcu (c q : Int × Int) (hq : q ∈ zLeaves 4 (c.1 * 64) (c.2 * 64)) :
    (4 ∣ q.1 - c.1 * 64) ∧ (4 ∣ q.2 - c.2 * 64) ∧ c.1 * 64 ≤ q.1 ∧ q.1 < c.1 * 64 + 64 ∧
      c.2 * 64 ≤ q.2 ∧ q.2 < c.2 * 64 + 64 := by
  rw [mem_zLeaves] at hq
  have h16 : (2 : Int) ^ 4 = 16 := by norm_num
  rw [h16] at hq
  obtain ⟨i, j, hi0, hi, hj0, hj, rfl⟩ := hq
  simp only []
  omega

/-- For a leaf of an LCU of the grid, in a frame whose sides are multiples of 4, the leaf
loops find a difference in the frame exactly when the leaf contains a pixel of the frame off
the baseline. -/
theorem leafDirty_iff_pixel (W H : Int) (m : Bool) (img : QImage) (hW : 4 ∣ W) (hH : 4 ∣ H)
    (c q : Int × Int) (hc1 : 0 ≤ c.1) (hc2 : 0 ≤ c.2)
    (hq : q ∈ zLeaves 4 (c.1 * 64) (c.2 * 64)) :
    leafDirty W H m img q = true ↔ leafHasDirtyPixel W H m img q := by
  have hz := zLeaves_lcu c q hq
  obtain ⟨x, y⟩ := q
  simp only [] at hz
  exact leafDirty_iff W H m img x y hW hH (by omega) (by omega) (by omega) (by omega)

/-- The report in terms of the pixels, for valid inputs, a current frame of the frame size
with sides that are multiples of 4, the HEVC order and fuel for the five levels: either the
frame has no pixel off the baseline and is reported identical, or the report names the LCU `c`
of least raster index with such a pixel, the first leaf `p` of `c` in quadrant order with such
a pixel, and the number of leaves of `c` in the frame that precede `p`. -/
theorem report_cases (env : Env) (self : videoHandlerDifference) (fuel : Nat)
    (infoList : List infoItem) (hv : inputsValid env self = true)
    (hc : self.codingOrder = CodingOrder_HEVC)
    (hw : self.currentFrame.toImage.width = self.frameSize.width)
    (hh : self.currentFrame.toImage.height = self.frameSize.height)
    (hf : 5 ≤ fuel) (hW : 4 ∣ self.frameSize.width) (hH : 4 ∣ self.frameSize.height) :
    (reportFirstDifferencePosition env self fuel infoList = some (infoList ++ identicalReport) ∧
      ∀ px py, ¬ pixelDirty self.frameSize.width self.frameSize.height self.markDifference
        self.currentFrame.toImage px py) ∨
    ∃ (c : Int × Int) (pre : List (Int × Int)) (p : Int × Int) (post : List (Int × Int)),
      reportFirstDifferencePosition env self fuel infoList =
        some (infoList ++ locationReport (c.2 * ((self.frameSize.width + 63) / 64) + c.1)
          p.1 p.2 (countInFrame self.frameSize.width self.frameSize.height pre)) ∧
      (0 ≤ c.1 ∧ c.1 < (self.frameSize.width + 63) / 64 ∧
        0 ≤ c.2 ∧ c.2 < (self.frameSize.height + 63) / 64) ∧
      (∀ px py, pixelDirty self.frameSize.width self.frameSize.height self.markDifference
          self.currentFrame.toImage px py →
        c.2 * ((self.frameSize.width + 63) / 64) + c.1 ≤
          py / 64 * ((self.frameSize.width + 63) / 64) + px / 64) ∧
      zLeaves 4 (c.1 * 64) (c.2 * 64) = pre ++ p :: post ∧
      (∀ q ∈ pre, ¬ leafHasDirtyPixel self.frameSize.width self.frameSize.height
        self.markDifference self.currentFrame.toImage q) ∧
      leafHasDirtyPixel self.frameSize.width self.frameSize.height self.markDifference
        self.currentFrame.toImage p := by
  have hW0 : 0 ≤ self.frameSize.width := by
    rw [← hw]
    exact Int.ofNat_nonneg _
  have hH0 : 0 ≤ self.frameSize.height := by
    rw [← hh]
    exact Int.ofNat_nonneg _
  have ewL : cdiv (self.frameSize.width + 63) 64 = (self.frameSize.width + 63) / 64 :=
    cdiv_of_nonneg (by omega) (by norm_num)
  have ehL : cdiv (self.frameSize.height + 63) 64 = (self.frameSize.height + 63) / 64 :=
    cdiv_of_nonneg (by omega) (by norm_num)
  rw [report_eq env self fuel infoList hv hw hh hc hf]
  rcases search_cases self.frameSize.width self.frameSize.height self.markDifference
    self.currentFrame.toImage hW hH with ⟨hnone, hclean⟩ | ⟨c, pre, p, post, hfind, hcm, hleast,
      hsplit, hpre, hpd, hscan⟩
  · left
    rw [hnone]
    exact ⟨rfl, hclean⟩
  · right
    rw [mem_lcuOrder] at hcm
    have hpm : p ∈ zLeaves 4 (c.1 * 64) (c.2 * 64) := by
      rw [hsplit]
      simp
    refine ⟨c, pre, p, post, ?_, ?_, ?_, hsplit, ?_, ?_⟩
    · rw [hfind]
      simp only [hscan, lcuIndex, ewL]
    · rw [ewL, ehL] at hcm
      exact hcm
    · intro px py hp
      have := hleast px py hp
      simpa only [lcuIndex, ewL] using this
    · intro q hq
      have hqm : q ∈ zLeaves 4 (c.1 * 64) (c.2 * 64) := by
        rw [hsplit]
        exact List.mem_append_left _ hq
      rw [← leafDirty_iff_pixel _ _ _ _ hW hH c q hcm.1 hcm.2.2.1 hqm, hpre q hq]
      simp
    · rw [← leafDirty_iff_pixel _ _ _ _ hW hH c p hcm.1 hcm.2.2.1 hpm]
      exact hpd

/-- In a split `pre ++ p :: post` where `p` does not occur in `pre`, the part `pre` is the
longest initial part without `p`. -/
theorem pre_eq_takeWhile (l pre post : List (Int × Int)) (p : Int × Int)
    (hsplit : l = pre ++ p :: post) (hpre : ∀ q ∈ pre, q ≠ p) :
    pre = l.takeWhile fun q => q != p := by
  rw [hsplit, List.takeWhile_append_of_pos (by
    intro q hq
    simpa using hpre q hq)]
  simp [List.takeWhile_cons]

/-- The number of leaves in a 1000x1000 frame that precede the leaf (996, 996) in the
quadrant order of the LCU at column 15, row 15. -/
theorem count_before_996 :
    countInFrame 1000 1000 ((zLeaves 4 (15 * 64) (15 * 64)).takeWhile fun q => q != (996, 996))
      = 99 := by decide

/-- The values that the locals `firstX` and `firstY` hold before the call are not observed:
when the search of an LCU returns `true`, the references at return are the same for any two
initial values. -/
theorem hierarchicalPosition_initial_unobserved (self : videoHandlerDifference) (img : QImage)
    (fuel : Nat) (hf : 5 ≤ fuel) (x y a b a' b' : Int) (r : Refs)
    (h : hierarchicalPosition self img fuel x y 64 ⟨a, b, 0⟩ = some (true, r)) :
    hierarchicalPosition self img fuel x y 64 ⟨a', b', 0⟩ = some (true, r) := by
  have h64 : (64 : Int) = 4 * 2 ^ 4 := by norm_num
  rw [h64, hierarchicalPosition_eq_scan self img 4 fuel _ _ _ (by omega), scanLeaves_eq] at h ⊢
  cases hfind : (zLeaves 4 x y).find? (leafDirty self.frameSize.width self.frameSize.height
      self.markDifference img) with
  | none =>
    rw [hfind] at h
    simp at h
  | some p =>
    rw [hfind] at h
    exact h

/-! ## Lemmas on the handler state -/

theorem inputsValid_iff (env : Env) (self : videoHandlerDifference) :
    inputsValid env self = true ↔
      ∃ a b, self.inputVideo0 = some a ∧ self.inputVideo1 = some b ∧
        (env a).isFormatValid = true ∧ (env b).isFormatValid = true := by
  unfold inputsValid
  cases h0 : self.inputVideo0 with
  | none => simp
  | some a =>
    cases h1 : self.inputVideo1 with
    | none => simp
    | some b => simp

/-- After `setInputVideos` the inputs are the pair that was passed. -/
theorem setInputVideos_inputs (env : Env) (self : videoHandlerDifference) (a b : Ptr) :
    (setInputVideos env self a b).1.inputVideo0 = a ∧
      (setInputVideos env self a b).1.inputVideo1 = b := by
  unfold setInputVideos
  by_cases h : self.inputVideo0 ≠ a ∨ self.inputVideo1 ≠ b
  · rw [if_pos h]
    simp only []
    split
    · cases a <;> cases b <;> simp [setFrameSize]
    · simp
  · rw [if_neg h]
    simp only [ne_eq, not_or, not_not] at h
    exact h

/-- A call of `setInputVideos` with a pair of valid sources that is not the current pair sets
the frame size to the componentwise minimum of the sizes of the two sources. -/
theorem setInputVideos_frameSize (env : Env) (self : videoHandlerDifference) (a b : Nat)
    (ha : (env a).isFormatValid = true) (hb : (env b).isFormatValid = true)
    (hne : self.inputVideo0 ≠ some a ∨ self.inputVideo1 ≠ some b) :
    (setInputVideos env self (some a) (some b)).1.frameSize =
      ⟨min (env a).getFrameSize.width (env b).getFrameSize.width,
       min (env a).getFrameSize.height (env b).getFrameSize.height⟩ := by
  unfold setInputVideos
  rw [if_pos hne]
  simp [inputsValid, ha, hb, setFrameSize]

/-! ## The properties -/

/-- C1, as amended: for every frame size whose width and height are multiples of 4 and every
difference image of exactly that size in which every pixel equals the no-difference baseline
of the active mode, with valid inputs and the HEVC coding order,
`reportFirstDifferencePosition` appends the single entry ("Difference", "Frames are
identical") and no first-difference location. -/
theorem C1_identical_when_all_baseline (env : Env) (self : videoHandlerDifference) (fuel : Nat)
    (infoList : List infoItem) (hv : inputsValid env self = true)
    (hc : self.codingOrder = CodingOrder_HEVC)
    (hw : self.currentFrame.toImage.width = self.frameSize.width)
    (hh : self.currentFrame.toImage.height = self.frameSize.height)
    (hf : 5 ≤ fuel)
    (hW : 4 ∣ self.frameSize.width) (hH : 4 ∣ self.frameSize.height)
    (hbase : ∀ x y : Int, 0 ≤ x → x < self.frameSize.width → 0 ≤ y →
      y < self.frameSize.height →
      isBaseline self.markDifference (self.currentFrame.toImage.pixel x y)) :
    reportFirstDifferencePosition env self fuel infoList =
      some (infoList ++ [infoItem.mk "Difference" "Frames are identical"]) := by
  rw [report_eq env self fuel infoList hv hw hh hc hf]
  rcases search_cases self.frameSize.width self.frameSize.height self.markDifference
    self.currentFrame.toImage hW hH with ⟨hnone, _⟩ | ⟨c, pre, p, post, hfind, hcm, _, hsplit,
      _, hpd, _⟩
  · rw [hnone]
    rfl
  · exfalso
    rw [mem_lcuOrder] at hcm
    have hpm : p ∈ zLeaves 4 (c.1 * 64) (c.2 * 64) := by
      rw [hsplit]
      simp
    rw [leafDirty_iff_pixel _ _ _ _ hW hH c p hcm.1 hcm.2.2.1 hpm] at hpd
    obtain ⟨px, py, _, _, _, _, h1, h2, h3, h4, hnb⟩ := hpd
    exact hnb (hbase px py h1 h2 h3 h4)

/-- Witness for C1: a gray 8x4 frame without marking. -/
theorem C1_identical_when_all_baseline_witness :
    reportFirstDifferencePosition exampleEnv (exampleHandler 8 4 false fun _ _ => grayPixel) 5 []
      = some ([] ++ [infoItem.mk "Difference" "Frames are identical"]) :=
  C1_identical_when_all_baseline exampleEnv (exampleHandler 8 4 false fun _ _ => grayPixel) 5 []
    (by decide) (by decide) (by decide) (by decide) (by decide) (by decide) (by decide)
    (by
      intro x y hx0 hx hy0 hy
      rw [pixel_in_range (exampleHandler 8 4 false fun _ _ => grayPixel).currentFrame.toImage
        x y ⟨hx0, hx, hy0, hy⟩]
      show isBaseline false grayPixel
      decide)

/-- Counterexample to C1 as stated (every frame size): a 2x2 frame whose four pixels are all
the gray baseline, with valid inputs, the HEVC order and an image of the frame size, is
reported with a first difference at LCU 0, position (0, 0), and not as identical: the leaf at
(0, 0) reads the coordinate (0, 2), which lies outside the image. -/
theorem C1_counterexample_frame_2x2 :
    inputsValid exampleEnv (exampleHandler 2 2 false fun _ _ => grayPixel) = true ∧
    (exampleHandler 2 2 false fun _ _ => grayPixel).codingOrder = CodingOrder_HEVC ∧
    (exampleHandler 2 2 false fun _ _ => grayPixel).currentFrame.toImage.width =
      (exampleHandler 2 2 false fun _ _ => grayPixel).frameSize.width ∧
    (exampleHandler 2 2 false fun _ _ => grayPixel).currentFrame.toImage.height =
      (exampleHandler 2 2 false fun _ _ => grayPixel).frameSize.height ∧
    (∀ x y : Int, 0 ≤ x → x < 2 → 0 ≤ y → y < 2 →
      isBaseline false
        ((exampleHandler 2 2 false fun _ _ => grayPixel).currentFrame.toImage.pixel x y)) ∧
    reportFirstDifferencePosition exampleEnv (exampleHandler 2 2 false fun _ _ => grayPixel) 5 []
      = some (locationReport 0 0 0 0) ∧
    reportFirstDifferencePosition exampleEnv (exampleHandler 2 2 false fun _ _ => grayPixel) 5 []
      ≠ some ([] ++ [infoItem.mk "Difference" "Frames are identical"]) := by
  refine ⟨by decide, by decide, by decide, by decide, ?_, by decide, by decide⟩
  intro x y hx0 hx hy0 hy
  have hx' : x = 0 ∨ x = 1 := by omega
  have hy' : y = 0 ∨ y = 1 := by omega
  rcases hx' with rfl | rfl <;> rcases hy' with rfl | rfl <;> decide

/-- C2: for a frame whose width and height are multiples of 4 (positive, as the frame holds a
pixel) and a difference image of exactly that size, with valid inputs and the HEVC order, if
a pixel `(px, py)` inside the frame differs from the baseline of the active mode, then
`reportFirstDifferencePosition` reports a first-difference location and not "Frames are
identical". -/
theorem C2_difference_is_reported (env : Env) (self : videoHandlerDifference) (fuel : Nat)
    (infoList : List infoItem) (hv : inputsValid env self = true)
    (hc : self.codingOrder = CodingOrder_HEVC)
    (hw : self.currentFrame.toImage.width = self.frameSize.width)
    (hh : self.currentFrame.toImage.height = self.frameSize.height)
    (hf : 5 ≤ fuel) (hW : 4 ∣ self.frameSize.width) (hH : 4 ∣ self.frameSize.height)
    (px py : Int)
    (hd : pixelDirty self.frameSize.width self.frameSize.height self.markDifference
      self.currentFrame.toImage px py) :
    (∃ lcu firstX firstY partIndex : Int,
      reportFirstDifferencePosition env self fuel infoList =
        some (infoList ++
          [infoItem.mk "First Difference LCU" (QString.number lcu),
           infoItem.mk "First Difference X" (QString.number firstX),
           infoItem.mk "First Difference Y" (QString.number firstY),
           infoItem.mk "First Difference partIndex" (QString.number partIndex)])) ∧
    reportFirstDifferencePosition env self fuel infoList ≠
      some (infoList ++ [infoItem.mk "Difference" "Frames are identical"]) := by
  rcases report_cases env self fuel infoList hv hc hw hh hf hW hH with
    ⟨_, hclean⟩ | ⟨c, pre, p, post, hrep, _⟩
  · exact absurd hd (hclean px py)
  · refine ⟨⟨_, _, _, _, hrep⟩, ?_⟩
    rw [hrep]
    intro h
    exact locationReport_ne_identical infoList _ _ _ _ (Option.some.inj h)

/-- Witness for C2: an 8x8 frame whose only differing pixel is the last one, (7, 7). -/
theorem C2_difference_is_reported_witness :
    (∃ lcu firstX firstY partIndex : Int,
      reportFirstDifferencePosition exampleEnv (exampleHandler 8 8 false (onePixel 7 7)) 5 [] =
        some ([] ++
          [infoItem.mk "First Difference LCU" (QString.number lcu),
           infoItem.mk "First Difference X" (QString.number firstX),
           infoItem.mk "First Difference Y" (QString.number firstY),
           infoItem.mk "First Difference partIndex" (QString.number partIndex)])) ∧
    reportFirstDifferencePosition exampleEnv (exampleHandler 8 8 false (onePixel 7 7)) 5 [] ≠
      some ([] ++ [infoItem.mk "Difference" "Frames are identical"]) :=
  C2_difference_is_reported exampleEnv (exampleHandler 8 8 false (onePixel 7 7)) 5 []
    (by decide) (by decide) (by decide) (by decide) (by decide) (by decide) (by decide) 7 7
    (by decide)

/-- C3: for a frame whose width and height are multiples of 4, a pixel `(px, py)` inside the
frame and an image of the frame size in which `(px, py)` is the only pixel off the baseline,
the reported location has LCU index `floor(py/64) * widthInLCUs + floor(px/64)` with
`widthInLCUs = (width + 63) / 64 = ceil(width/64)`, and `(firstX, firstY) =
(px - px % 4, py - py % 4)`. -/
theorem C3_single_pixel_location (env : Env) (self : videoHandlerDifference) (fuel : Nat)
    (infoList : List infoItem) (hv : inputsValid env self = true)
    (hc : self.codingOrder = CodingOrder_HEVC)
    (hw : self.currentFrame.toImage.width = self.frameSize.width)
    (hh : self.currentFrame.toImage.height = self.frameSize.height)
    (hf : 5 ≤ fuel) (hW : 4 ∣ self.frameSize.width) (hH : 4 ∣ self.frameSize.height)
    (px py : Int)
    (hd : pixelDirty self.frameSize.width self.frameSize.height self.markDifference
      self.currentFrame.toImage px py)
    (honly : ∀ x y : Int, 0 ≤ x → x < self.frameSize.width → 0 ≤ y →
      y < self.frameSize.height → (x, y) ≠ (px, py) →
      isBaseline self.markDifference (self.currentFrame.toImage.pixel x y)) :
    ∃ partIndex : Int,
      reportFirstDifferencePosition env self fuel infoList =
        some (infoList ++
          [infoItem.mk "First Difference LCU"
             (QString.number (py / 64 * ((self.frameSize.width + 63) / 64) + px / 64)),
           infoItem.mk "First Difference X" (QString.number (px - px % 4)),
           infoItem.mk "First Difference Y" (QString.number (py - py % 4)),
           infoItem.mk "First Difference partIndex" (QString.number partIndex)]) := by
  rcases report_cases env self fuel infoList hv hc hw hh hf hW hH with
    ⟨_, hclean⟩ | ⟨c, pre, p, post, hrep, hcm, _, hsplit, _, hp⟩
  · exact absurd hd (hclean px py)
  · have hpm : p ∈ zLeaves 4 (c.1 * 64) (c.2 * 64) := by
      rw [hsplit]
      simp
    have hz := zLeaves_lcu c p hpm
    obtain ⟨qx, qy, h1, h2, h3, h4, hq⟩ := hp
    have heq : (qx, qy) = (px, py) := by
      by_contra hne
      exact hq.2.2.2.2 (honly qx qy hq.1 hq.2.1 hq.2.2.1 hq.2.2.2.1 hne)
    obtain ⟨rfl, rfl⟩ := Prod.mk.inj heq
    have e1 : p.1 = qx - qx % 4 := by omega
    have e2 : p.2 = qy - qy % 4 := by omega
    have e3 : c.1 = qx / 64 := by omega
    have e4 : c.2 = qy / 64 := by omega
    refine ⟨countInFrame self.frameSize.width self.frameSize.height pre, ?_⟩
    rw [hrep, e1, e2, e3, e4]
    rfl

/-- Witness for C3: a 128x128 frame whose only differing pixel is (70, 66). -/
theorem C3_single_pixel_location_witness :
    ∃ partIndex : Int,
      reportFirstDifferencePosition exampleEnv (exampleHandler 128 128 false (onePixel 70 66))
          5 [] =
        some ([] ++
          [infoItem.mk "First Difference LCU"
             (QString.number (66 / 64 *
               (((exampleHandler 128 128 false (onePixel 70 66)).frameSize.width + 63) / 64)
               + 70 / 64)),
           infoItem.mk "First Difference X" (QString.number (70 - 70 % 4)),
           infoItem.mk "First Difference Y" (QString.number (66 - 66 % 4)),
           infoItem.mk "First Difference partIndex" (QString.number partIndex)]) :=
  C3_single_pixel_location exampleEnv (exampleHandler 128 128 false (onePixel 70 66)) 5 []
    (by decide) (by decide) (by decide) (by decide) (by decide) (by decide) (by decide) 70 66
    (by decide)
    (by
      intro x y hx0 hx hy0 hy hne
      rw [pixel_in_range (exampleHandler 128 128 false (onePixel 70 66)).currentFrame.toImage
        x y ⟨hx0, hx, hy0, hy⟩]
      have hne' : ¬ (x = 70 ∧ y = 66) := fun h => hne (by rw [h.1, h.2])
      show isBaseline false (onePixel 70 66 x y)
      unfold onePixel
      rw [if_neg hne']
      decide)

/-- C4: for an image of the frame size (width and height multiples of 4) on which a location
is reported, the reported LCU index is the smallest raster index `row * widthInLCUs + col` of
a 64x64 LCU that contains a pixel of the frame off the baseline: the reported LCU contains
such a pixel and no LCU with a smaller index contains one. -/
theorem C4_first_lcu_in_raster_order (env : Env) (self : videoHandlerDifference) (fuel : Nat)
    (infoList : List infoItem) (hv : inputsValid env self = true)
    (hc : self.codingOrder = CodingOrder_HEVC)
    (hw : self.currentFrame.toImage.width = self.frameSize.width)
    (hh : self.currentFrame.toImage.height = self.frameSize.height)
    (hf : 5 ≤ fuel) (hW : 4 ∣ self.frameSize.width) (hH : 4 ∣ self.frameSize.height)
    (hrep : ∃ lcu firstX firstY partIndex : Int,
      reportFirstDifferencePosition env self fuel infoList =
        some (infoList ++ locationReport lcu firstX firstY partIndex)) :
    ∃ lcu firstX firstY partIndex : Int,
      reportFirstDifferencePosition env self fuel infoList =
        some (infoList ++
          [infoItem.mk "First Difference LCU" (QString.number lcu),
           infoItem.mk "First Difference X" (QString.number firstX),
           infoItem.mk "First Difference Y" (QString.number firstY),
           infoItem.mk "First Difference partIndex" (QString.number partIndex)]) ∧
      (∃ px py : Int,
        pixelDirty self.frameSize.width self.frameSize.height self.markDifference
          self.currentFrame.toImage px py ∧
        py / 64 * ((self.frameSize.width + 63) / 64) + px / 64 = lcu) ∧
      (∀ px py : Int,
        pixelDirty self.frameSize.width self.frameSize.height self.markDifference
          self.currentFrame.toImage px py →
        lcu ≤ py / 64 * ((self.frameSize.width + 63) / 64) + px / 64) := by
  rcases report_cases env self fuel infoList hv hc hw hh hf hW hH with
    ⟨hid, _⟩ | ⟨c, pre, p, post, hrep', hcm, hleast, hsplit, _, hp⟩
  · exfalso
    obtain ⟨a, b, c, d, h⟩ := hrep
    rw [hid] at h
    exact locationReport_ne_identical infoList a b c d (Option.some.inj h).symm
  · have hpm : p ∈ zLeaves 4 (c.1 * 64) (c.2 * 64) := by
      rw [hsplit]
      simp
    have hz := zLeaves_lcu c p hpm
    obtain ⟨qx, qy, h1, h2, h3, h4, hq⟩ := hp
    refine ⟨_, _, _, _, hrep', ⟨qx, qy, hq, ?_⟩, hleast⟩
    have e3 : qx / 64 = c.1 := by omega
    have e4 : qy / 64 = c.2 := by omega
    rw [e3, e4]

/-- Witness for C4: a 68x4 frame whose only differing pixel is (65, 1), in the second LCU. -/
theorem C4_first_lcu_in_raster_order_witness :
    ∃ lcu firstX firstY partIndex : Int,
      reportFirstDifferencePosition exampleEnv (exampleHandler 68 4 false (onePixel 65 1))
          5 [] =
        some ([] ++
          [infoItem.mk "First Difference LCU" (QString.number lcu),
           infoItem.mk "First Difference X" (QString.number firstX),
           infoItem.mk "First Difference Y" (QString.number firstY),
           infoItem.mk "First Difference partIndex" (QString.number partIndex)]) ∧
      (∃ px py : Int,
        pixelDirty (exampleHandler 68 4 false (onePixel 65 1)).frameSize.width
          (exampleHandler 68 4 false (onePixel 65 1)).frameSize.height
          (exampleHandler 68 4 false (onePixel 65 1)).markDifference
          (exampleHandler 68 4 false (onePixel 65 1)).currentFrame.toImage px py ∧
        py / 64 * (((exampleHandler 68 4 false (onePixel 65 1)).frameSize.width + 63) / 64)
          + px / 64 = lcu) ∧
      (∀ px py : Int,
        pixelDirty (exampleHandler 68 4 false (onePixel 65 1)).frameSize.width
          (exampleHandler 68 4 false (onePixel 65 1)).frameSize.height
          (exampleHandler 68 4 false (onePixel 65 1)).markDifference
          (exampleHandler 68 4 false (onePixel 65 1)).currentFrame.toImage px py →
        lcu ≤ py / 64 *
          (((exampleHandler 68 4 false (onePixel 65 1)).frameSize.width + 63) / 64)
          + px / 64) :=
  C4_first_lcu_in_raster_order exampleEnv (exampleHandler 68 4 false (onePixel 65 1)) 5 []
    (by decide) (by decide) (by decide) (by decide) (by decide) (by decide) (by decide)
    ⟨1, 64, 0, 0, by decide⟩

/-- C5: for an image of the frame size (width and height multiples of 4) on which a location
is reported, there are the reported LCU `c` of the grid and a split `pre ++ p :: post` of its
leaves in the recursive quadrant order (top-left, top-right, bottom-left, bottom-right) such
that `(firstX, firstY) = p` is the first leaf containing a pixel of the frame off the baseline
(no leaf of `pre` contains one) and `partIndex` is the number of leaves of `pre` that lie in
the frame; leaves of other LCUs and leaves outside the frame are not counted. -/
theorem C5_partIndex_counts_clean_leaves (env : Env) (self : videoHandlerDifference)
    (fuel : Nat) (infoList : List infoItem) (hv : inputsValid env self = true)
    (hc : self.codingOrder = CodingOrder_HEVC)
    (hw : self.currentFrame.toImage.width = self.frameSize.width)
    (hh : self.currentFrame.toImage.height = self.frameSize.height)
    (hf : 5 ≤ fuel) (hW : 4 ∣ self.frameSize.width) (hH : 4 ∣ self.frameSize.height)
    (hrep : ∃ lcu firstX firstY partIndex : Int,
      reportFirstDifferencePosition env self fuel infoList =
        some (infoList ++ locationReport lcu firstX firstY partIndex)) :
    ∃ (c : Int × Int) (pre : List (Int × Int)) (p : Int × Int) (post : List (Int × Int)),
      reportFirstDifferencePosition env self fuel infoList =
        some (infoList ++
          [infoItem.mk "First Difference LCU"
             (QString.number (c.2 * ((self.frameSize.width + 63) / 64) + c.1)),
           infoItem.mk "First Difference X" (QString.number p.1),
           infoItem.mk "First Difference Y" (QString.number p.2),
           infoItem.mk "First Difference partIndex"
             (QString.number (((pre.filter fun q =>
               decide (q.1 < self.frameSize.width) && decide (q.2 < self.frameSize.height)).length
                 : Nat) : Int))]) ∧
      (0 ≤ c.1 ∧ c.1 < (self.frameSize.width + 63) / 64 ∧
        0 ≤ c.2 ∧ c.2 < (self.frameSize.height + 63) / 64) ∧
      zLeaves 4 (c.1 * 64) (c.2 * 64) = pre ++ p :: post ∧
      (∀ q ∈ pre, ¬ leafHasDirtyPixel self.frameSize.width self.frameSize.height
        self.markDifference self.currentFrame.toImage q) ∧
      leafHasDirtyPixel self.frameSize.width self.frameSize.height self.markDifference
        self.currentFrame.toImage p := by
  rcases report_cases env self fuel infoList hv hc hw hh hf hW hH with
    ⟨hid, _⟩ | ⟨c, pre, p, post, hrep', hcm, _, hsplit, hpre, hp⟩
  · exfalso
    obtain ⟨a, b, c, d, h⟩ := hrep
    rw [hid] at h
    exact locationReport_ne_identical infoList a b c d (Option.some.inj h).symm
  · exact ⟨c, pre, p, post, hrep', hcm, hsplit, hpre, hp⟩

/-- Witness for C5: a 72x8 frame whose only differing pixel is (70, 5); the report is LCU 1,
leaf (68, 4), partIndex 3. -/
theorem C5_partIndex_counts_clean_leaves_witness :
    ∃ (c : Int × Int) (pre : List (Int × Int)) (p : Int × Int) (post : List (Int × Int)),
      reportFirstDifferencePosition exampleEnv (exampleHandler 72 8 false (onePixel 70 5)) 5 [] =
        some ([] ++
          [infoItem.mk "First Difference LCU"
             (QString.number (c.2 *
               (((exampleHandler 72 8 false (onePixel 70 5)).frameSize.width + 63) / 64) + c.1)),
           infoItem.mk "First Difference X" (QString.number p.1),
           infoItem.mk "First Difference Y" (QString.number p.2),
           infoItem.mk "First Difference partIndex"
             (QString.number (((pre.filter fun q =>
               decide (q.1 < (exampleHandler 72 8 false (onePixel 70 5)).frameSize.width) &&
               decide (q.2 < (exampleHandler 72 8 false (onePixel 70 5)).frameSize.height)).length
                 : Nat) : Int))]) ∧
      (0 ≤ c.1 ∧ c.1 < ((exampleHandler 72 8 false (onePixel 70 5)).frameSize.width + 63) / 64 ∧
        0 ≤ c.2 ∧
          c.2 < ((exampleHandler 72 8 false (onePixel 70 5)).frameSize.height + 63) / 64) ∧
      zLeaves 4 (c.1 * 64) (c.2 * 64) = pre ++ p :: post ∧
      (∀ q ∈ pre, ¬ leafHasDirtyPixel (exampleHandler 72 8 false (onePixel 70 5)).frameSize.width
        (exampleHandler 72 8 false (onePixel 70 5)).frameSize.height
        (exampleHandler 72 8 false (onePixel 70 5)).markDifference
        (exampleHandler 72 8 false (onePixel 70 5)).currentFrame.toImage q) ∧
      leafHasDirtyPixel (exampleHandler 72 8 false (onePixel 70 5)).frameSize.width
        (exampleHandler 72 8 false (onePixel 70 5)).frameSize.height
        (exampleHandler 72 8 false (onePixel 70 5)).markDifference
        (exampleHandler 72 8 false (onePixel 70 5)).currentFrame.toImage p :=
  C5_partIndex_counts_clean_leaves exampleEnv (exampleHandler 72 8 false (onePixel 70 5)) 5 []
    (by decide) (by decide) (by decide) (by decide) (by decide) (by decide) (by decide)
    ⟨1, 68, 4, 3, by decide⟩

/-- C6: for a 1000x1000 frame whose difference image is at the baseline everywhere except at
the pixel (999, 999), in either mark mode, `reportFirstDifferencePosition` reports the LCU
index 255, First Difference X 996, First Difference Y 996 and partIndex 99. -/
theorem C6_frame_1000_last_pixel (env : Env) (self : videoHandlerDifference) (fuel : Nat)
    (infoList : List infoItem) (hv : inputsValid env self = true)
    (hc : self.codingOrder = CodingOrder_HEVC)
    (hfs : self.frameSize = ⟨1000, 1000⟩)
    (hw : self.currentFrame.toImage.width = 1000)
    (hh : self.currentFrame.toImage.height = 1000)
    (hf : 5 ≤ fuel)
    (hd : ¬ isBaseline self.markDifference (self.currentFrame.toImage.pixel 999 999))
    (honly : ∀ x y : Int, 0 ≤ x → x < 1000 → 0 ≤ y → y < 1000 → (x, y) ≠ (999, 999) →
      isBaseline self.markDifference (self.currentFrame.toImage.pixel x y)) :
    reportFirstDifferencePosition env self fuel infoList =
      some (infoList ++
        [infoItem.mk "First Difference LCU" "255",
         infoItem.mk "First Difference X" "996",
         infoItem.mk "First Difference Y" "996",
         infoItem.mk "First Difference partIndex" "99"]) := by
  have eW : self.frameSize.width = 1000 := by rw [hfs]
  have eH : self.frameSize.height = 1000 := by rw [hfs]
  have hdirty : pixelDirty self.frameSize.width self.frameSize.height self.markDifference
      self.currentFrame.toImage 999 999 := by
    rw [eW, eH]
    exact ⟨by norm_num, by norm_num, by norm_num, by norm_num, hd⟩
  rcases report_cases env self fuel infoList hv hc (by rw [hw, eW]) (by rw [hh, eH]) hf
    (by rw [eW]; norm_num) (by rw [eH]; norm_num) with
    ⟨_, hclean⟩ | ⟨c, pre, p, post, hrep, hcm, _, hsplit, hpre, hp⟩
  · exact absurd hdirty (hclean 999 999)
  · rw [eW, eH] at hrep hcm hpre hp
    have hpm : p ∈ zLeaves 4 (c.1 * 64) (c.2 * 64) := by
      rw [hsplit]
      simp
    have hz := zLeaves_lcu c p hpm
    have hp' := hp
    obtain ⟨qx, qy, h1, h2, h3, h4, hq⟩ := hp'
    have heq : (qx, qy) = (999, 999) := by
      by_contra hne
      exact hq.2.2.2.2 (honly qx qy hq.1 hq.2.1 hq.2.2.1 hq.2.2.2.1 hne)
    obtain ⟨rfl, rfl⟩ := Prod.mk.inj heq
    have e1 : p.1 = 996 := by omega
    have e2 : p.2 = 996 := by omega
    have e3 : c.1 = 15 := by omega
    have e4 : c.2 = 15 := by omega
    have ep : p = (996, 996) := Prod.ext e1 e2
    have hne : ∀ q ∈ pre, q ≠ p := by
      intro q hq hqp
      rw [hqp] at hq
      exact hpre p hq hp
    have hpre_eq := pre_eq_takeWhile _ pre post p hsplit hne
    rw [e3, e4, ep] at hpre_eq
    have hl : locationReport (15 * ((1000 + 63) / 64) + 15) 996 996 99 =
        [infoItem.mk "First Difference LCU" "255",
         infoItem.mk "First Difference X" "996",
         infoItem.mk "First Difference Y" "996",
         infoItem.mk "First Difference partIndex" "99"] := by decide
    rw [hrep, hpre_eq, count_before_996, e1, e2, e3, e4, hl]

/-- Witness for C6: the 1000x1000 frame that is gray except for a white pixel at (999, 999),
without marking. -/
theorem C6_frame_1000_last_pixel_witness :
    reportFirstDifferencePosition exampleEnv (exampleHandler 1000 1000 false (onePixel 999 999))
        5 [] =
      some ([] ++
        [infoItem.mk "First Difference LCU" "255",
         infoItem.mk "First Difference X" "996",
         infoItem.mk "First Difference Y" "996",
         infoItem.mk "First Difference partIndex" "99"]) :=
  C6_frame_1000_last_pixel exampleEnv (exampleHandler 1000 1000 false (onePixel 999 999)) 5 []
    (by decide) (by decide) (by decide) (by decide) (by decide) (by decide) (by decide)
    (by
      intro x y hx0 hx hy0 hy hne
      rw [pixel_in_range (exampleHandler 1000 1000 false (onePixel 999 999)).currentFrame.toImage
        x y ⟨hx0, hx, hy0, hy⟩]
      have hne' : ¬ (x = 999 ∧ y = 999) := fun h => hne (by rw [h.1, h.2])
      show isBaseline false (onePixel 999 999 x y)
      unfold onePixel
      rw [if_neg hne']
      decide)

/-- C7: `inputsValid` is true iff both inputs are non-null and both report a valid format;
whenever it is false, `loadFrame` leaves the handler (so `currentFrame`, `currentFrameIdx` and
`differenceInfoList`) unchanged and emits no signal, `getPixelValues` returns the empty list
and `reportFirstDifferencePosition` returns the info list unchanged, for every frame index,
position and fuel; and it is false after `setInputVideos(NULL, b)`. -/
theorem C7_not_ready_is_noop (env : Env) (self : videoHandlerDifference) :
    (inputsValid env self = true ↔
      ∃ a b, self.inputVideo0 = some a ∧ self.inputVideo1 = some b ∧
        (env a).isFormatValid = true ∧ (env b).isFormatValid = true) ∧
    (inputsValid env self = false →
      ∀ (frameIndex : Int) (pixelPos : QPoint) (item2 : Ptr) (fuel : Nat)
        (infoList : List infoItem),
        (loadFrame env self frameIndex).1.currentFrame = self.currentFrame ∧
        (loadFrame env self frameIndex).1.currentFrameIdx = self.currentFrameIdx ∧
        (loadFrame env self frameIndex).1.differenceInfoList = self.differenceInfoList ∧
        loadFrame env self frameIndex = (self, []) ∧
        getPixelValues env self pixelPos frameIndex item2 = [] ∧
        reportFirstDifferencePosition env self fuel infoList = some infoList) ∧
    (∀ b : Ptr, inputsValid env (setInputVideos env self none b).1 = false) := by
  refine ⟨inputsValid_iff env self, ?_, ?_⟩
  · intro h frameIndex pixelPos item2 fuel infoList
    have hl : loadFrame env self frameIndex = (self, []) := by
      simp [loadFrame, h]
    refine ⟨by rw [hl], by rw [hl], by rw [hl], hl, ?_, ?_⟩
    · simp [getPixelValues, h]
    · simp [reportFirstDifferencePosition, h]
  · intro b
    have h := (setInputVideos_inputs env self none b).1
    unfold inputsValid
    rw [h]

/-- Witness for C7: the handler obtained from a fresh one by `setInputVideos(NULL, 0)` with
the valid source 0. -/
theorem C7_not_ready_is_noop_witness :
    inputsValid exampleEnv (setInputVideos exampleEnv freshHandler none (some 0)).1 = false ∧
    loadFrame exampleEnv (setInputVideos exampleEnv freshHandler none (some 0)).1 0 =
      ((setInputVideos exampleEnv freshHandler none (some 0)).1, []) ∧
    getPixelValues exampleEnv (setInputVideos exampleEnv freshHandler none (some 0)).1 ⟨3, 2⟩ 0
      none = [] ∧
    reportFirstDifferencePosition exampleEnv
      (setInputVideos exampleEnv freshHandler none (some 0)).1 5 [] = some [] :=
  have h := (C7_not_ready_is_noop exampleEnv
    (setInputVideos exampleEnv freshHandler none (some 0)).1).2.1 (by decide) 0 ⟨3, 2⟩ none 5 []
  ⟨by decide, h.2.2.2.1, h.2.2.2.2.1, h.2.2.2.2.2⟩

/-- C8: for a current frame whose width or height differs from the configured frame size,
`reportFirstDifferencePosition` returns the info list as it was, whatever the pixels of the
image are and for every amount of fuel, zero included (so without a call of the search): no
first-difference location is reported. -/
theorem C8_size_mismatch_not_scanned (env : Env) (self : videoHandlerDifference) (fuel : Nat)
    (infoList : List infoItem)
    (hmis : self.currentFrame.toImage.width ≠ self.frameSize.width ∨
      self.currentFrame.toImage.height ≠ self.frameSize.height)
    (data : Int → Int → QRgb) :
    reportFirstDifferencePosition env
        { self with currentFrame := ⟨{ self.currentFrame.toImage with data := data }⟩ }
        fuel infoList = some infoList ∧
    ∀ lcu firstX firstY partIndex : Int,
      reportFirstDifferencePosition env
          { self with currentFrame := ⟨{ self.currentFrame.toImage with data := data }⟩ }
          fuel infoList ≠
        some (infoList ++
          [infoItem.mk "First Difference LCU" (QString.number lcu),
           infoItem.mk "First Difference X" (QString.number firstX),
           infoItem.mk "First Difference Y" (QString.number firstY),
           infoItem.mk "First Difference partIndex" (QString.number partIndex)]) := by
  have hmis' : ¬ (self.currentFrame.toImage.width = self.frameSize.width ∧
      self.currentFrame.toImage.height = self.frameSize.height) := by
    intro h
    rcases hmis with h1 | h1
    · exact h1 h.1
    · exact h1 h.2
  have h : reportFirstDifferencePosition env
      { self with currentFrame := ⟨{ self.currentFrame.toImage with data := data }⟩ }
      fuel infoList = some infoList := by
    unfold reportFirstDifferencePosition
    split
    · rfl
    · have hor : ((QImage.mk self.currentFrame.toImage.cols self.currentFrame.toImage.rows
          data).width ≠ self.frameSize.width ∨
          (QImage.mk self.currentFrame.toImage.cols self.currentFrame.toImage.rows
          data).height ≠ self.frameSize.height) := hmis
      simp only []
      rw [if_pos hor]
  refine ⟨h, ?_⟩
  intro lcu firstX firstY partIndex
  rw [h]
  intro heq
  have := congrArg List.length (Option.some.inj heq)
  simp at this

/-- Witness for C8: a 4x4 gray frame held by a handler configured for 8x8, probed with an
all-white content. -/
theorem C8_size_mismatch_not_scanned_witness :
    reportFirstDifferencePosition exampleEnv
        { ({ exampleHandler 4 4 false (fun _ _ => grayPixel) with frameSize := ⟨8, 8⟩ } :
            videoHandlerDifference) with
          currentFrame := ⟨{ ({ exampleHandler 4 4 false (fun _ _ => grayPixel) with
            frameSize := ⟨8, 8⟩ } : videoHandlerDifference).currentFrame.toImage with
              data := fun _ _ => whitePixel }⟩ }
        0 [] = some [] :=
  (C8_size_mismatch_not_scanned exampleEnv
    { exampleHandler 4 4 false (fun _ _ => grayPixel) with frameSize := ⟨8, 8⟩ } 0 []
    (by decide) (fun _ _ => whitePixel)).1

/-- C9: for valid sources `a` and `b` whose pair is not the current pair of inputs, after
`setInputVideos(a, b)` the frame size is `(min(widthA, widthB), min(heightA, heightB))`; the
call `setInputVideos(b, a)`, on any handler whose current pair is not `(b, a)`, gives the same
frame size, whichever source is larger. -/
theorem C9_frame_size_is_min (env : Env) (self : videoHandlerDifference) (a b : Nat)
    (ha : (env a).isFormatValid = true) (hb : (env b).isFormatValid = true)
    (hne : self.inputVideo0 ≠ some a ∨ self.inputVideo1 ≠ some b) :
    (setInputVideos env self (some a) (some b)).1.frameSize =
      ⟨min (env a).getFrameSize.width (env b).getFrameSize.width,
       min (env a).getFrameSize.height (env b).getFrameSize.height⟩ ∧
    ∀ other : videoHandlerDifference,
      (other.inputVideo0 ≠ some b ∨ other.inputVideo1 ≠ some a) →
      (setInputVideos env other (some b) (some a)).1.frameSize =
        (setInputVideos env self (some a) (some b)).1.frameSize := by
  refine ⟨setInputVideos_frameSize env self a b ha hb hne, ?_⟩
  intro other hother
  rw [setInputVideos_frameSize env self a b ha hb hne,
    setInputVideos_frameSize env other b a hb ha hother,
    min_comm (env b).getFrameSize.width, min_comm (env b).getFrameSize.height]

/-- Witness for C9: the sources 0 (16x8) and 1 (8x16) set on a fresh handler, in both
orders; the frame size is 8x8. -/
theorem C9_frame_size_is_min_witness :
    (setInputVideos exampleEnv freshHandler (some 0) (some 1)).1.frameSize = ⟨8, 8⟩ ∧
    (setInputVideos exampleEnv freshHandler (some 1) (some 0)).1.frameSize =
      (setInputVideos exampleEnv freshHandler (some 0) (some 1)).1.frameSize :=
  have h := C9_frame_size_is_min exampleEnv freshHandler 0 1 (by decide) (by decide)
    (by decide)
  ⟨h.1.trans (by decide), h.2 freshHandler (by decide)⟩

/-- C10, as amended: the first of two calls of `setInputVideos` in a row with the identical
pair emits exactly one `signalHandlerChanged` when the pair differs from the current inputs
and none when it is the current pair; the second call emits none and leaves the whole handler
unchanged. -/
theorem C10_second_call_is_noop (env : Env) (self : videoHandlerDifference) (a b : Ptr) :
    ((self.inputVideo0 ≠ a ∨ self.inputVideo1 ≠ b) →
      (setInputVideos env self a b).2 = [(true, false)]) ∧
    ((self.inputVideo0 = a ∧ self.inputVideo1 = b) →
      (setInputVideos env self a b).2 = []) ∧
    setInputVideos env (setInputVideos env self a b).1 a b =
      ((setInputVideos env self a b).1, []) := by
  refine ⟨?_, ?_, ?_⟩
  · intro h
    unfold setInputVideos
    rw [if_pos h]
  · intro h
    unfold setInputVideos
    rw [if_neg (by simp [h])]
  · have h := setInputVideos_inputs env self a b
    generalize (setInputVideos env self a b).1 = s1 at h
    unfold setInputVideos
    rw [if_neg (by simp [h])]

/-- Witness for C10: the sources 0 and 1 set twice on a fresh handler. -/
theorem C10_second_call_is_noop_witness :
    (setInputVideos exampleEnv freshHandler (some 0) (some 1)).2 = [(true, false)] ∧
    setInputVideos exampleEnv (setInputVideos exampleEnv freshHandler (some 0) (some 1)).1
        (some 0) (some 1) =
      ((setInputVideos exampleEnv freshHandler (some 0) (some 1)).1, []) :=
  have h := C10_second_call_is_noop exampleEnv freshHandler (some 0) (some 1)
  ⟨h.1 (by decide), h.2.2⟩

/-- Counterexample to C10 as stated: on the handler reached from a fresh one by
`setInputVideos(0, 1)`, the first of two further calls `setInputVideos(0, 1)` emits no signal
at all, not exactly one. -/
theorem C10_counterexample_pair_already_set :
    (setInputVideos exampleEnv (setInputVideos exampleEnv freshHandler (some 0) (some 1)).1
        (some 0) (some 1)).2 = [] ∧
    (setInputVideos exampleEnv (setInputVideos exampleEnv freshHandler (some 0) (some 1)).1
        (some 0) (some 1)).2.length ≠ 1 := by
  constructor <;> decide

/-- C11: a change of the mark check box or of the amplification spin box stores the new value
(and leaves the other one), sets `currentFrameIdx` to -1, which is different from every frame
index (these are not negative), and emits `signalHandlerChanged(true, false)`, a required
redraw; a following `loadFrame`, on valid inputs, stores the image computed by source A
against source B with the new `amplificationFactor` and `markDifference` and records the
index. -/
theorem C11_control_change_invalidates (env : Env) (ui : Ui) (self : videoHandlerDifference)
    (sender : Sender)
    (hs : sender = Sender.markDifferenceCheckBox ∨
      sender = Sender.amplificationFactorSpinBox) :
    (sender = Sender.markDifferenceCheckBox →
      (slotDifferenceControlChanged ui sender self).1.markDifference =
          ui.markDifferenceChecked ∧
        (slotDifferenceControlChanged ui sender self).1.amplificationFactor =
          self.amplificationFactor) ∧
    (sender = Sender.amplificationFactorSpinBox →
      (slotDifferenceControlChanged ui sender self).1.amplificationFactor =
          ui.amplificationFactorValue ∧
        (slotDifferenceControlChanged ui sender self).1.markDifference =
          self.markDifference) ∧
    (slotDifferenceControlChanged ui sender self).1.currentFrameIdx = -1 ∧
    (∀ frameIndex : Int, 0 ≤ frameIndex →
      (slotDifferenceControlChanged ui sender self).1.currentFrameIdx ≠ frameIndex) ∧
    (slotDifferenceControlChanged ui sender self).2 = [(true, false)] ∧
    (∀ (frameIndex : Int) (a : Nat), self.inputVideo0 = some a →
      inputsValid env self = true →
      (loadFrame env (slotDifferenceControlChanged ui sender self).1 frameIndex).1.currentFrame
          = ((env a).calculateDifference self.inputVideo1 frameIndex []
              (slotDifferenceControlChanged ui sender self).1.amplificationFactor
              (slotDifferenceControlChanged ui sender self).1.markDifference).1 ∧
        (loadFrame env (slotDifferenceControlChanged ui sender self).1
          frameIndex).1.currentFrameIdx = frameIndex) := by
  rcases hs with rfl | rfl
  · refine ⟨fun _ => ⟨rfl, rfl⟩, fun h => Sender.noConfusion h, rfl, ?_, rfl, ?_⟩
    · intro frameIndex h0
      show (-1 : Int) ≠ frameIndex
      omega
    · intro frameIndex a ha hv
      have hv' : inputsValid env (slotDifferenceControlChanged ui
          Sender.markDifferenceCheckBox self).1 = true := hv
      simp only [loadFrame, hv', Bool.not_true, Bool.false_eq_true, if_false]
      have ha' : (slotDifferenceControlChanged ui Sender.markDifferenceCheckBox
          self).1.inputVideo0 = some a := ha
      rw [ha']
      exact ⟨rfl, rfl⟩
  · refine ⟨fun h => Sender.noConfusion h, fun _ => ⟨rfl, rfl⟩, rfl, ?_, rfl, ?_⟩
    · intro frameIndex h0
      show (-1 : Int) ≠ frameIndex
      omega
    · intro frameIndex a ha hv
      have hv' : inputsValid env (slotDifferenceControlChanged ui
          Sender.amplificationFactorSpinBox self).1 = true := hv
      simp only [loadFrame, hv', Bool.not_true, Bool.false_eq_true, if_false]
      have ha' : (slotDifferenceControlChanged ui Sender.amplificationFactorSpinBox
          self).1.inputVideo0 = some a := ha
      rw [ha']
      exact ⟨rfl, rfl⟩

/-- Witness for C11: the amplification factor set to 4 on a handler with valid inputs and a
current frame index 0. -/
theorem C11_control_change_invalidates_witness :
    (slotDifferenceControlChanged ⟨true, 0, 4⟩ Sender.amplificationFactorSpinBox
      (exampleHandler 8 8 false fun _ _ => grayPixel)).1.amplificationFactor = 4 ∧
    (slotDifferenceControlChanged ⟨true, 0, 4⟩ Sender.amplificationFactorSpinBox
      (exampleHandler 8 8 false fun _ _ => grayPixel)).1.currentFrameIdx = -1 ∧
    (slotDifferenceControlChanged ⟨true, 0, 4⟩ Sender.amplificationFactorSpinBox
      (exampleHandler 8 8 false fun _ _ => grayPixel)).2 = [(true, false)] ∧
    (loadFrame exampleEnv (slotDifferenceControlChanged ⟨true, 0, 4⟩
      Sender.amplificationFactorSpinBox
      (exampleHandler 8 8 false fun _ _ => grayPixel)).1 0).1.currentFrameIdx = 0 :=
  have h := C11_control_change_invalidates exampleEnv ⟨true, 0, 4⟩
    (exampleHandler 8 8 false fun _ _ => grayPixel) Sender.amplificationFactorSpinBox
    (Or.inr rfl)
  ⟨(h.2.1 rfl).1, h.2.2.1, h.2.2.2.2.1, (h.2.2.2.2.2 0 0 rfl (by decide)).2⟩

/-- C12: a change of the coding order combo box changes only the `codingOrder` field:
`currentFrame`, `currentFrameIdx`, `markDifference`, `amplificationFactor`, the inputs, the
frame size and the difference descriptors are unchanged, and the one emitted signal is
`signalHandlerChanged(false, false)`, whose first flag (a redraw of the content) is false. -/
theorem C12_coding_order_change_only (ui : Ui) (self : videoHandlerDifference) :
    (slotDifferenceControlChanged ui Sender.codingOrderComboBox self).1 =
      { self with codingOrder := ⟨ui.codingOrderCurrentIndex⟩ } ∧
    (slotDifferenceControlChanged ui Sender.codingOrderComboBox self).1.currentFrame =
      self.currentFrame ∧
    (slotDifferenceControlChanged ui Sender.codingOrderComboBox self).1.currentFrameIdx =
      self.currentFrameIdx ∧
    (slotDifferenceControlChanged ui Sender.codingOrderComboBox self).1.markDifference =
      self.markDifference ∧
    (slotDifferenceControlChanged ui Sender.codingOrderComboBox self).1.amplificationFactor =
      self.amplificationFactor ∧
    (slotDifferenceControlChanged ui Sender.codingOrderComboBox self).1.inputVideo0 =
      self.inputVideo0 ∧
    (slotDifferenceControlChanged ui Sender.codingOrderComboBox self).1.inputVideo1 =
      self.inputVideo1 ∧
    (slotDifferenceControlChanged ui Sender.codingOrderComboBox self).1.frameSize =
      self.frameSize ∧
    (slotDifferenceControlChanged ui Sender.codingOrderComboBox self).1.differenceInfoList =
      self.differenceInfoList ∧
    (slotDifferenceControlChanged ui Sender.codingOrderComboBox self).2 = [(false, false)] :=
  ⟨rfl, rfl, rfl, rfl, rfl, rfl, rfl, rfl, rfl, rfl⟩

/-- C13, as amended: when the inputs are valid, `loadFrame(frameIndex)` replaces the
difference descriptors by those that source A's difference computation against source B
collects starting from the cleared list, stores the image of that computation (made with the
current `amplificationFactor` and `markDifference`) as current frame, sets `currentFrameIdx`
to `frameIndex`, and emits the one signal `signalHandlerChanged(false, false)`: both flags
are false. -/
theorem C13_loadFrame_on_valid_inputs (env : Env) (self : videoHandlerDifference)
    (frameIndex : Int) (hv : inputsValid env self = true) :
    ∃ a : Nat, self.inputVideo0 = some a ∧
      loadFrame env self frameIndex =
        ({ self with
            differenceInfoList := ((env a).calculateDifference self.inputVideo1 frameIndex []
              self.amplificationFactor self.markDifference).2,
            currentFrame := ((env a).calculateDifference self.inputVideo1 frameIndex []
              self.amplificationFactor self.markDifference).1,
            currentFrameIdx := frameIndex },
          [(false, false)]) := by
  obtain ⟨a, b, ha, _, _, _⟩ := (inputsValid_iff env self).mp hv
  refine ⟨a, ha, ?_⟩
  simp only [loadFrame, hv, Bool.not_true, Bool.false_eq_true, if_false]
  rw [ha]

/-- Witness for C13: frame 3 loaded on a handler with the valid sources 0 and 1. -/
theorem C13_loadFrame_on_valid_inputs_witness :
    ∃ a : Nat, (exampleHandler 8 8 false fun _ _ => grayPixel).inputVideo0 = some a ∧
      loadFrame exampleEnv (exampleHandler 8 8 false fun _ _ => grayPixel) 3 =
        ({ (exampleHandler 8 8 false fun _ _ => grayPixel) with
            differenceInfoList := ((exampleEnv a).calculateDifference
              (exampleHandler 8 8 false fun _ _ => grayPixel).inputVideo1 3 []
              (exampleHandler 8 8 false fun _ _ => grayPixel).amplificationFactor
              (exampleHandler 8 8 false fun _ _ => grayPixel).markDifference).2,
            currentFrame := ((exampleEnv a).calculateDifference
              (exampleHandler 8 8 false fun _ _ => grayPixel).inputVideo1 3 []
              (exampleHandler 8 8 false fun _ _ => grayPixel).amplificationFactor
              (exampleHandler 8 8 false fun _ _ => grayPixel).markDifference).1,
            currentFrameIdx := 3 },
          [(false, false)]) :=
  C13_loadFrame_on_valid_inputs exampleEnv (exampleHandler 8 8 false fun _ _ => grayPixel) 3
    (by decide)

/-- Counterexample to C13 as stated: on a handler with valid inputs, `loadFrame(3)` emits
`signalHandlerChanged(false, false)`; its first flag is false, so the signal is not the
claimed one with contentChanged = true. -/
theorem C13_counterexample_signal_flags :
    inputsValid exampleEnv (exampleHandler 8 8 false fun _ _ => grayPixel) = true ∧
    (loadFrame exampleEnv (exampleHandler 8 8 false fun _ _ => grayPixel) 3).2 =
      [(false, false)] ∧
    (loadFrame exampleEnv (exampleHandler 8 8 false fun _ _ => grayPixel) 3).2 ≠
      [(true, false)] := by
  refine ⟨by decide, by decide, by decide⟩

/-! ## The pure search -/

/-- The pure search gives a location exactly when it finds a difference. -/
theorem hierarchicalPositionPure_loc (W H : Int) (m : Bool) (img : QImage) (fuel : Nat) :
    ∀ (x y size : Int) (found : Bool) (loc : Option (Int × Int)) (n : Int),
      hierarchicalPositionPure W H m img fuel x y size = some (found, loc, n) →
      (found = true → loc.isSome = true) ∧ (found = false → loc = none) := by
  induction fuel with
  | zero =>
    intro x y size found loc n h
    simp [hierarchicalPositionPure] at h
  | succ f ih =>
    intro x y size found loc n h
    simp only [hierarchicalPositionPure] at h
    split at h
    · cases h
      simp
    · split at h
      · split at h <;> cases h <;> simp
      · split at h
        · cases h
        · rename_i loc1 n1 h1
          cases h
          exact ih _ _ _ _ _ _ h1
        · split at h
          · cases h
          · rename_i loc2 n2 h2
            cases h
            exact ih _ _ _ _ _ _ h2
          · split at h
            · cases h
            · rename_i loc3 n3 h3
              cases h
              exact ih _ _ _ _ _ _ h3
            · split at h
              · cases h
              · rename_i loc4 n4 h4
                cases h
                exact ih _ _ _ _ _ _ h4
              · cases h
                simp

theorem threadResult_false (r : Refs) (loc : Option (Int × Int)) (n : Int) :
    threadResult r (false, loc, n) = (false, ⟨r.firstX, r.firstY, r.partIndex + n⟩) := by
  cases loc <;> rfl

theorem threadResult_true (r : Refs) (loc : Option (Int × Int)) (n : Int) :
    ∃ q : Refs, threadResult r (true, loc, n) = (true, q) := by
  cases loc with
  | none => exact ⟨_, rfl⟩
  | some c => exact ⟨_, rfl⟩

theorem threadResult_shift (r : Refs) (loc : Option (Int × Int)) (k n : Int) (b : Bool) :
    threadResult ⟨r.firstX, r.firstY, r.partIndex + k⟩ (b, loc, n) =
      threadResult r (b, loc, k + n) := by
  cases b <;> cases loc <;> simp [threadResult, add_assoc]

/-- The search with the threaded references is the pure search followed by the write-back of
its result into the references. -/
theorem hierarchicalPosition_eq_pure (self : videoHandlerDifference) (img : QImage)
    (fuel : Nat) :
    ∀ (x y size : Int) (r : Refs),
      hierarchicalPosition self img fuel x y size r =
        (hierarchicalPositionPure self.frameSize.width self.frameSize.height
          self.markDifference img fuel x y size).map (threadResult r) := by
  induction fuel with
  | zero =>
    intro x y size r
    rfl
  | succ f ih =>
    intro x y size r
    simp only [hierarchicalPosition, hierarchicalPositionPure]
    by_cases hout : x ≥ self.frameSize.width ∨ y ≥ self.frameSize.height
    · simp [hout, threadResult]
    · simp only [hout, if_false]
      by_cases h4 : size = 4
      · simp only [h4, if_true]
        split <;> simp [threadResult]
      · simp only [h4, if_false, ih]
        rcases h1 : hierarchicalPositionPure self.frameSize.width self.frameSize.height
          self.markDifference img f x y (cdiv size 2) with _ | ⟨b1, loc1, n1⟩
        · rfl
        · cases b1
          · simp only [Option.map_some', threadResult_false]
            rcases h2 : hierarchicalPositionPure self.frameSize.width self.frameSize.height
              self.markDifference img f (x + cdiv size 2) y (cdiv size 2)
              with _ | ⟨b2, loc2, n2⟩
            · rfl
            · cases b2
              · simp only [Option.map_some', threadResult_false]
                rcases h3 : hierarchicalPositionPure self.frameSize.width
                  self.frameSize.height self.markDifference img f x (y + cdiv size 2)
                  (cdiv size 2) with _ | ⟨b3, loc3, n3⟩
                · rfl
                · cases b3
                  · simp only [Option.map_some', threadResult_false]
                    rcases h4 : hierarchicalPositionPure self.frameSize.width
                      self.frameSize.height self.markDifference img f (x + cdiv size 2)
                      (y + cdiv size 2) (cdiv size 2) with _ | ⟨b4, loc4, n4⟩
                    · rfl
                    · cases b4
                      · simp only [Option.map_some', threadResult_false, add_assoc]
                      · obtain ⟨q, hq⟩ := threadResult_true
                          ⟨r.firstX, r.firstY, r.partIndex + n1 + n2 + n3⟩ loc4 n4
                        simp only [Option.map_some', hq]
                        rw [← hq]
                        simp only [add_assoc, threadResult_shift]
                  · obtain ⟨q, hq⟩ := threadResult_true
                      ⟨r.firstX, r.firstY, r.partIndex + n1 + n2⟩ loc3 n3
                    simp only [Option.map_some', hq]
                    rw [← hq]
                    simp only [add_assoc, threadResult_shift]
              · obtain ⟨q, hq⟩ := threadResult_true
                  ⟨r.firstX, r.firstY, r.partIndex + n1⟩ loc2 n2
                simp only [Option.map_some', hq]
                rw [← hq, threadResult_shift]
          · obtain ⟨q, hq⟩ := threadResult_true r loc1 n1
            simp only [Option.map_some', hq]

/-- A block size of the search is `4 * 2^k` for a depth `k` of at most 4. -/
theorem blockSize_cases (size : Int)
    (hsize : size = 4 ∨ size = 8 ∨ size = 16 ∨ size = 32 ∨ size = 64) :
    ∃ k : Nat, k ≤ 4 ∧ size = 4 * 2 ^ k := by
  rcases hsize with h | h | h | h | h
  · exact ⟨0, by norm_num, by rw [h]; norm_num⟩
  · exact ⟨1, by norm_num, by rw [h]; norm_num⟩
  · exact ⟨2, by norm_num, by rw [h]; norm_num⟩
  · exact ⟨3, by norm_num, by rw [h]; norm_num⟩
  · exact ⟨4, by norm_num, by rw [h]; norm_num⟩

/-- C15: for every image, frame size, mark flag and block `(x, y, size)` with `size` in
{4, 8, 16, 32, 64}, the search with the counter threaded by reference and the pure function
returning `(found, location, leavesScannedClean)` both return, with the same found flag; the
final `partIndex` is the initial one plus the pure count of clean leaves, a found location is
the final `(firstX, firstY)`, and without a find the pure location is empty and `firstX`,
`firstY` are untouched. -/
theorem C15_threaded_equals_pure (self : videoHandlerDifference) (img : QImage) (fuel : Nat)
    (x y size : Int) (r : Refs)
    (hsize : size = 4 ∨ size = 8 ∨ size = 16 ∨ size = 32 ∨ size = 64) (hf : 5 ≤ fuel) :
    ∃ (found : Bool) (loc : Option (Int × Int)) (n : Int) (q : Refs),
      hierarchicalPositionPure self.frameSize.width self.frameSize.height self.markDifference
        img fuel x y size = some (found, loc, n) ∧
      hierarchicalPosition self img fuel x y size r = some (found, q) ∧
      q.partIndex = r.partIndex + n ∧
      (found = true → loc = some (q.firstX, q.firstY)) ∧
      (found = false → loc = none ∧ q.firstX = r.firstX ∧ q.firstY = r.firstY) := by
  obtain ⟨k, hk, rfl⟩ := blockSize_cases size hsize
  have hscan := hierarchicalPosition_eq_scan self img k fuel x y r (by omega)
  have hpure := hierarchicalPosition_eq_pure self img fuel x y (4 * 2 ^ k) r
  rcases hp : hierarchicalPositionPure self.frameSize.width self.frameSize.height
    self.markDifference img fuel x y (4 * 2 ^ k) with _ | ⟨found, loc, n⟩
  · rw [hp, hscan] at hpure
    simp at hpure
  · rw [hp] at hpure
    have hloc := hierarchicalPositionPure_loc _ _ _ _ fuel x y _ found loc n hp
    cases found
    · have hnone := hloc.2 rfl
      subst hnone
      exact ⟨false, none, n, _, rfl, hpure, rfl, fun h => Bool.noConfusion h,
        fun _ => ⟨rfl, rfl, rfl⟩⟩
    · have hsome := hloc.1 rfl
      obtain ⟨⟨a, b⟩, rfl⟩ := Option.isSome_iff_exists.mp hsome
      exact ⟨true, some (a, b), n, _, rfl, hpure, rfl, fun _ => rfl,
        fun h => Bool.noConfusion h⟩

/-- Witness for C15: the LCU at (0, 0) of an 8x8 frame whose only differing pixel is (7, 7). -/
theorem C15_threaded_equals_pure_witness :
    ∃ (found : Bool) (loc : Option (Int × Int)) (n : Int) (q : Refs),
      hierarchicalPositionPure (exampleHandler 8 8 false (onePixel 7 7)).frameSize.width
        (exampleHandler 8 8 false (onePixel 7 7)).frameSize.height
        (exampleHandler 8 8 false (onePixel 7 7)).markDifference
        (exampleHandler 8 8 false (onePixel 7 7)).currentFrame.toImage 5 0 0 64 =
          some (found, loc, n) ∧
      hierarchicalPosition (exampleHandler 8 8 false (onePixel 7 7))
        (exampleHandler 8 8 false (onePixel 7 7)).currentFrame.toImage 5 0 0 64 ⟨0, 0, 0⟩ =
          some (found, q) ∧
      q.partIndex = (⟨0, 0, 0⟩ : Refs).partIndex + n ∧
      (found = true → loc = some (q.firstX, q.firstY)) ∧
      (found = false → loc = none ∧ q.firstX = (⟨0, 0, 0⟩ : Refs).firstX ∧
        q.firstY = (⟨0, 0, 0⟩ : Refs).firstY) :=
  C15_threaded_equals_pure (exampleHandler 8 8 false (onePixel 7 7))
    (exampleHandler 8 8 false (onePixel 7 7)).currentFrame.toImage 5 0 0 64 ⟨0, 0, 0⟩
    (by decide) (by decide)

/-! ## The pixels read by the search -/

theorem leafTrace_fst (m : Bool) (img : QImage) (l : List (Int × Int)) :
    (leafTrace m img l).1 = l.any fun p => isDifference m (img.pixel p.1 p.2) := by
  induction l with
  | nil => rfl
  | cons p rest ih =>
    simp only [leafTrace, List.any_cons]
    split
    · rename_i h
      simp [h]
    · rename_i h
      simp [h, ih]

theorem leafTrace_leaf (m : Bool) (img : QImage) (x y : Int) :
    (leafTrace m img (leafPixels x y)).1 = leafHasDifference m img x y :=
  leafTrace_fst m img (leafPixels x y)

theorem leafTrace_mem (m : Bool) (img : QImage) (l : List (Int × Int)) :
    ∀ p ∈ (leafTrace m img l).2, p ∈ l := by
  induction l with
  | nil => simp [leafTrace]
  | cons q rest ih =>
    intro p hp
    simp only [leafTrace] at hp
    split at hp
    · simp only [List.mem_singleton] at hp
      rw [hp]
      exact List.mem_cons_self _ _
    · rcases List.mem_cons.mp hp with h | h
      · rw [h]
        exact List.mem_cons_self _ _
      · exact List.mem_cons_of_mem _ (ih p h)

theorem leafTrace_length (m : Bool) (img : QImage) (l : List (Int × Int)) :
    (leafTrace m img l).2.length ≤ l.length := by
  induction l with
  | nil => simp [leafTrace]
  | cons q rest ih =>
    simp only [leafTrace]
    split
    · simp
    · simp only [List.length_cons]
      omega

theorem scanTrace_append (W H : Int) (m : Bool) (img : QImage) (l1 l2 : List (Int × Int)) :
    scanTrace W H m img (l1 ++ l2) =
      if l1.any (leafDirty W H m img) then scanTrace W H m img l1
      else scanTrace W H m img l1 ++ scanTrace W H m img l2 := by
  induction l1 with
  | nil => simp [scanTrace]
  | cons p rest ih =>
    simp only [List.cons_append, scanTrace, List.any_cons, leafDirty, leafInFrame,
      leafTrace_leaf]
    by_cases hout : p.1 ≥ W ∨ p.2 ≥ H
    · have hin : (decide (p.1 < W) && decide (p.2 < H)) = false := by
        simp only [Bool.and_eq_false_imp, decide_eq_true_eq, decide_eq_false_iff_not]
        omega
      simp only [hout, if_true, hin, Bool.false_and, Bool.false_or]
      exact ih
    · have hin : (decide (p.1 < W) && decide (p.2 < H)) = true := by
        simp only [Bool.and_eq_true, decide_eq_true_eq]
        omega
      simp only [hout, if_false, hin, Bool.true_and]
      cases hd : leafHasDifference m img p.1 p.2
      · simp only [Bool.false_eq_true, if_false, Bool.false_or]
        rw [List.append_eq, ih]
        split <;> simp
      · simp

theorem scanTrace_out (W H : Int) (m : Bool) (img : QImage) (l : List (Int × Int))
    (h : ∀ p ∈ l, p.1 ≥ W ∨ p.2 ≥ H) : scanTrace W H m img l = [] := by
  induction l with
  | nil => rfl
  | cons p rest ih =>
    have hp := h p (List.mem_cons_self _ _)
    simp only [scanTrace, hp, if_true]
    exact ih fun q hq => h q (List.mem_cons_of_mem _ hq)

theorem scanLeaves_any (W H : Int) (m : Bool) (img : QImage) (l : List (Int × Int)) (r q : Refs)
    (b : Bool) (h : scanLeaves W H m img l r = (b, q)) : l.any (leafDirty W H m img) = b := by
  rw [← scanLeaves_fst W H m img l r, h]

/-- With fuel above the depth `k`, the traced search of a block of size `4 * 2^k` is the
sequential scan of the block's leaves, with the reads of that scan. -/
theorem hierarchicalPositionTrace_eq_scan (self : videoHandlerDifference) (img : QImage)
    (k : Nat) :
    ∀ (fuel : Nat) (x y : Int) (r : Refs), k < fuel →
      hierarchicalPositionTrace self img fuel x y (4 * 2 ^ k) r =
        some ((scanLeaves self.frameSize.width self.frameSize.height self.markDifference img
            (zLeaves k x y) r).1,
          (scanLeaves self.frameSize.width self.frameSize.height self.markDifference img
            (zLeaves k x y) r).2,
          scanTrace self.frameSize.width self.frameSize.height self.markDifference img
            (zLeaves k x y)) := by
  induction k with
  | zero =>
    intro fuel x y r hf
    obtain ⟨f, rfl⟩ : ∃ f, fuel = f + 1 := ⟨fuel - 1, by omega⟩
    simp only [hierarchicalPositionTrace, pow_zero, mul_one, zLeaves, scanLeaves, scanTrace,
      leafTrace_leaf]
    split
    · rfl
    · simp only [if_true]
      split <;> simp
  | succ k ih =>
    intro fuel x y r hf
    obtain ⟨f, rfl⟩ : ∃ f, fuel = f + 1 := ⟨fuel - 1, by omega⟩
    have hk : k < f := by omega
    simp only [hierarchicalPositionTrace]
    split
    · rename_i hout
      have hall : ∀ p ∈ zLeaves (k + 1) x y,
          p.1 ≥ self.frameSize.width ∨ p.2 ≥ self.frameSize.height := by
        intro p hp
        have := zLeaves_ge (k + 1) x y p hp
        omega
      rw [scanLeaves_out _ _ _ _ _ _ hall, scanTrace_out _ _ _ _ _ hall]
    · rw [if_neg (block_ne_four k)]
      simp only [cdiv_block, zLeaves, scanLeaves_append, scanTrace_append, List.any_append]
      rw [ih f x y r hk]
      rcases h1 : scanLeaves self.frameSize.width self.frameSize.height self.markDifference img
        (zLeaves k x y) r with ⟨_ | _, r1⟩
      · have a1 := scanLeaves_any _ _ _ _ _ _ _ _ h1
        simp only []
        rw [ih f _ _ r1 hk]
        rcases h2 : scanLeaves self.frameSize.width self.frameSize.height self.markDifference
          img (zLeaves k (x + 4 * 2 ^ k) y) r1 with ⟨_ | _, r2⟩
        · have a2 := scanLeaves_any _ _ _ _ _ _ _ _ h2
          simp only []
          rw [ih f _ _ r2 hk]
          rcases h3 : scanLeaves self.frameSize.width self.frameSize.height
            self.markDifference img (zLeaves k x (y + 4 * 2 ^ k)) r2 with ⟨_ | _, r3⟩
          · have a3 := scanLeaves_any _ _ _ _ _ _ _ _ h3
            simp only []
            rw [ih f _ _ r3 hk]
            rcases h4 : scanLeaves self.frameSize.width self.frameSize.height
              self.markDifference img (zLeaves k (x + 4 * 2 ^ k) (y + 4 * 2 ^ k)) r3
              with ⟨_ | _, r4⟩ <;> simp [h1, h2, h3, h4, a1, a2, a3]
          · have a3 := scanLeaves_any _ _ _ _ _ _ _ _ h3
            simp [h1, h2, h3, a1, a2, a3]
        · have a2 := scanLeaves_any _ _ _ _ _ _ _ _ h2
          simp [h1, h2, a1, a2]
      · have a1 := scanLeaves_any _ _ _ _ _ _ _ _ h1
        simp [h1, a1]

/-- The traced search returns what `hierarchicalPosition` returns, for every fuel and every
block. -/
theorem hierarchicalPositionTrace_result (self : videoHandlerDifference) (img : QImage)
    (fuel : Nat) :
    ∀ (x y size : Int) (r : Refs),
      (hierarchicalPositionTrace self img fuel x y size r).map (fun t => (t.1, t.2.1)) =
        hierarchicalPosition self img fuel x y size r := by
  induction fuel with
  | zero =>
    intro x y size r
    rfl
  | succ f ih =>
    intro x y size r
    simp only [hierarchicalPosition, hierarchicalPositionTrace]
    by_cases hout : x ≥ self.frameSize.width ∨ y ≥ self.frameSize.height
    · simp [hout]
    · by_cases h4 : size = 4
      · simp only [hout, h4, if_true, if_false, leafTrace_leaf]
        split <;> rfl
      · simp only [hout, h4, if_false, ← ih]
        rcases h1 : hierarchicalPositionTrace self img f x y (cdiv size 2) r
          with _ | ⟨b1, r1, t1⟩
        · rfl
        · cases b1
          · simp only [Option.map_some']
            rcases h2 : hierarchicalPositionTrace self img f (x + cdiv size 2) y
              (cdiv size 2) r1 with _ | ⟨b2, r2, t2⟩
            · rfl
            · cases b2
              · simp only [Option.map_some']
                rcases h3 : hierarchicalPositionTrace self img f x (y + cdiv size 2)
                  (cdiv size 2) r2 with _ | ⟨b3, r3, t3⟩
                · rfl
                · cases b3
                  · simp only [Option.map_some']
                    rcases h4 : hierarchicalPositionTrace self img f (x + cdiv size 2)
                      (y + cdiv size 2) (cdiv size 2) r3 with _ | ⟨b4, r4, t4⟩
                    · rfl
                    · cases b4 <;> rfl
                  · rfl
              · rfl
          · rfl

theorem lcuLoopTrace_result (self : videoHandlerDifference) (img : QImage) (fuel : Nat)
    (widthLCU : Int) (l : List (Int × Int)) :
    (lcuLoopTrace self img fuel widthLCU l).map (fun t => t.1) =
      lcuLoop self img fuel widthLCU l := by
  induction l with
  | nil => rfl
  | cons c rest ih =>
    obtain ⟨x, y⟩ := c
    simp only [lcuLoop, lcuLoopTrace, ← hierarchicalPositionTrace_result, ← ih]
    rcases hierarchicalPositionTrace self img fuel (x * 64) (y * 64) 64 ⟨0, 0, 0⟩
      with _ | ⟨b, r, t⟩
    · rfl
    · cases b
      · simp only [Option.map_some']
        rcases lcuLoopTrace self img fuel widthLCU rest with _ | ⟨res, t2, n⟩
        · rfl
        · rfl
      · rfl

/-- The traced report returns what `reportFirstDifferencePosition` returns, for every fuel. -/
theorem reportTrace_result (env : Env) (self : videoHandlerDifference) (fuel : Nat)
    (infoList : List infoItem) :
    (reportFirstDifferencePositionTrace env self fuel infoList).map (fun t => t.1) =
      reportFirstDifferencePosition env self fuel infoList := by
  unfold reportFirstDifferencePositionTrace reportFirstDifferencePosition
  by_cases hv : (!inputsValid env self) = true
  · rw [if_pos hv, if_pos hv]
    rfl
  · rw [if_neg hv, if_neg hv]
    simp only []
    by_cases hmis : self.currentFrame.toImage.width ≠ self.frameSize.width ∨
        self.currentFrame.toImage.height ≠ self.frameSize.height
    · rw [if_pos hmis, if_pos hmis]
      rfl
    · rw [if_neg hmis, if_neg hmis]
      by_cases hc : self.codingOrder = CodingOrder_HEVC
      · rw [if_pos hc, if_pos hc, ← lcuLoopTrace_result]
        rcases lcuLoopTrace self self.currentFrame.toImage fuel
          (cdiv (self.frameSize.width + 63) 64)
          (lcuOrder (cdiv (self.frameSize.width + 63) 64)
            (cdiv (self.frameSize.height + 63) 64)) with _ | ⟨_ | ⟨lcu, r⟩, t, n⟩
        · rfl
        · rfl
        · rfl
      · rw [if_neg hc, if_neg hc]
        rfl

theorem mem_leafPixels (x y : Int) (p : Int × Int) (hp : p ∈ leafPixels x y) :
    x ≤ p.1 ∧ p.1 < x + 4 ∧ y ≤ p.2 ∧ p.2 < y + 4 := by
  rw [leafPixels_eq] at hp
  simp only [List.mem_cons, List.mem_singleton, List.not_mem_nil, or_false] at hp
  rcases hp with h | h | h | h | h | h | h | h | h | h | h | h | h | h | h | h <;>
    (rw [h]; simp only []; omega)

theorem leafPixels_length (x y : Int) : (leafPixels x y).length = 16 := by
  rw [leafPixels_eq]
  rfl

theorem zLeaves_length (k : Nat) (x y : Int) : (zLeaves k x y).length = 4 ^ k := by
  induction k generalizing x y with
  | zero => rfl
  | succ k ih =>
    simp only [zLeaves, List.length_append, ih, pow_succ]
    omega

theorem scanTrace_length (W H : Int) (m : Bool) (img : QImage) (l : List (Int × Int)) :
    (scanTrace W H m img l).length ≤ 16 * l.length := by
  induction l with
  | nil => simp [scanTrace]
  | cons p rest ih =>
    have hleaf := leafTrace_length m img (leafPixels p.1 p.2)
    rw [leafPixels_length] at hleaf
    simp only [scanTrace, List.length_cons]
    split
    · omega
    · split
      · omega
      · rw [List.length_append]
        omega

/-- The reads of a scan lie inside the image when every leaf of the list that starts in the
frame lies in the frame as a whole. -/
theorem scanTrace_valid (m : Bool) (img : QImage) (l : List (Int × Int))
    (hl : ∀ q ∈ l, q.1 < img.width → q.2 < img.height →
      0 ≤ q.1 ∧ q.1 + 4 ≤ img.width ∧ 0 ≤ q.2 ∧ q.2 + 4 ≤ img.height) :
    ∀ p ∈ scanTrace img.width img.height m img l, img.valid p.1 p.2 = true := by
  induction l with
  | nil =>
    intro p hp
    simp [scanTrace] at hp
  | cons q rest ih =>
    intro p hp
    have ih' := ih fun c hc => hl c (List.mem_cons_of_mem _ hc)
    have hleaf : ¬ (q.1 ≥ img.width ∨ q.2 ≥ img.height) →
        p ∈ (leafTrace m img (leafPixels q.1 q.2)).2 → img.valid p.1 p.2 = true := by
      intro hin hmem
      have hq := hl q (List.mem_cons_self _ _) (by omega) (by omega)
      have hpx := mem_leafPixels q.1 q.2 p (leafTrace_mem m img _ p hmem)
      simp only [QImage.valid, Bool.and_eq_true, decide_eq_true_eq]
      omega
    simp only [scanTrace] at hp
    split at hp
    · exact ih' p hp
    · rename_i hin
      split at hp
      · exact hleaf hin hp
      · rcases List.mem_append.mp hp with h | h
        · exact hleaf hin h
        · exact ih' p h

/-- The reads of one LCU of the grid lie inside the image of the frame size when the sides of
the frame are multiples of 4. -/
theorem lcu_reads_valid (self : videoHandlerDifference) (img : QImage)
    (hw : img.width = self.frameSize.width) (hh : img.height = self.frameSize.height)
    (hW : 4 ∣ self.frameSize.width) (hH : 4 ∣ self.frameSize.height) (c : Int × Int)
    (hc1 : 0 ≤ c.1) (hc2 : 0 ≤ c.2) :
    ∀ p ∈ scanTrace self.frameSize.width self.frameSize.height self.markDifference img
      (zLeaves 4 (c.1 * 64) (c.2 * 64)), img.valid p.1 p.2 = true := by
  rw [← hw, ← hh]
  apply scanTrace_valid
  intro q hq h1 h2
  have hz := zLeaves_lcu c q hq
  rw [← hw] at hW
  rw [← hh] at hH
  omega

/-- With fuel for the five levels the traced loop over a list of LCUs returns; it visits at
most as many LCUs as the list has, reads at most 256 leaves of 16 pixels in each, and, in a
frame whose sides are multiples of 4, reads only coordinates inside the image. -/
theorem lcuLoopTrace_spec (self : videoHandlerDifference) (img : QImage) (fuel : Nat)
    (widthLCU : Int) (hf : 5 ≤ fuel) (l : List (Int × Int)) :
    ∃ res t n, lcuLoopTrace self img fuel widthLCU l = some (res, t, n) ∧
      n ≤ l.length ∧ t.length ≤ 256 * 16 * n ∧
      (img.width = self.frameSize.width → img.height = self.frameSize.height →
        4 ∣ self.frameSize.width → 4 ∣ self.frameSize.height →
        (∀ c ∈ l, 0 ≤ c.1 ∧ 0 ≤ c.2) → ∀ p ∈ t, img.valid p.1 p.2 = true) := by
  have h64 : (64 : Int) = 4 * 2 ^ 4 := by norm_num
  induction l with
  | nil =>
    refine ⟨none, [], 0, rfl, by simp, by simp, ?_⟩
    intro _ _ _ _ _ p hp
    simp at hp
  | cons c rest ih =>
    obtain ⟨x, y⟩ := c
    obtain ⟨res, t2, n, hrest, hn, ht2, hvalid⟩ := ih
    have hlen := scanTrace_length self.frameSize.width self.frameSize.height
      self.markDifference img (zLeaves 4 (x * 64) (y * 64))
    rw [zLeaves_length] at hlen
    simp only [lcuLoopTrace]
    rw [h64, hierarchicalPositionTrace_eq_scan self img 4 fuel _ _ _ (by omega), ← h64]
    rcases scanLeaves self.frameSize.width self.frameSize.height self.markDifference img
      (zLeaves 4 (x * 64) (y * 64)) ⟨0, 0, 0⟩ with ⟨_ | _, r1⟩
    · simp only [hrest]
      refine ⟨_, _, _, rfl, by simp only [List.length_cons]; omega, ?_, ?_⟩
      · rw [List.length_append]
        omega
      · intro hw hh hW hH hall p hp
        rcases List.mem_append.mp hp with h | h
        · exact lcu_reads_valid self img hw hh hW hH (x, y)
            (hall (x, y) (List.mem_cons_self _ _)).1
            (hall (x, y) (List.mem_cons_self _ _)).2 p h
        · exact hvalid hw hh hW hH (fun c hc => hall c (List.mem_cons_of_mem _ hc)) p h
    · simp only []
      refine ⟨_, _, _, rfl, by simp only [List.length_cons]; omega, by omega, ?_⟩
      intro hw hh hW hH hall p hp
      exact lcu_reads_valid self img hw hh hW hH (x, y)
        (hall (x, y) (List.mem_cons_self _ _)).1
        (hall (x, y) (List.mem_cons_self _ _)).2 p hp

theorem lcuOrder_length (wL hL : Int) : (lcuOrder wL hL).length = hL.toNat * wL.toNat := by
  unfold lcuOrder
  generalize hL.toNat = h
  induction h with
  | zero => simp
  | succ n ih =>
    rw [List.range_succ, List.flatMap_append, List.length_append, ih]
    simp [Nat.succ_mul]

/-- The number of LCU columns (rows) the loops run over is `ceil(width / 64)`, and zero for
a negative width. -/
theorem cdiv_toNat_eq_ceil (W : Int) : (cdiv (W + 63) 64).toNat = ⌈(W : ℚ) / 64⌉.toNat := by
  rw [← ceil_div_64]
  by_cases h : 0 ≤ W + 63
  · rw [cdiv_of_nonneg h (by norm_num)]
  · have h1 : cdiv (W + 63) 64 ≤ 0 := by
      have h2 : 0 ≤ (-(W + 63)).tdiv 64 := Int.tdiv_nonneg (by omega) (by norm_num)
      rw [Int.neg_tdiv] at h2
      unfold cdiv
      omega
    rw [Int.toNat_of_nonpos h1, Int.toNat_of_nonpos (by omega)]

/-- With fuel for the five levels the traced report returns, with the result of
`reportFirstDifferencePosition`; it visits at most `ceil(width/64) * ceil(height/64)` LCUs,
reads at most 256 leaves of 16 pixels in each, and reads only coordinates inside the image
when the image has the frame size and the sides are multiples of 4. -/
theorem reportTrace_spec (env : Env) (self : videoHandlerDifference) (fuel : Nat)
    (infoList : List infoItem) (hf : 5 ≤ fuel) :
    ∃ out t n, reportFirstDifferencePositionTrace env self fuel infoList = some (out, t, n) ∧
      reportFirstDifferencePosition env self fuel infoList = some out ∧
      n ≤ ⌈(self.frameSize.width : ℚ) / 64⌉.toNat * ⌈(self.frameSize.height : ℚ) / 64⌉.toNat ∧
      t.length ≤ 256 * 16 * n ∧
      (4 ∣ self.frameSize.width → 4 ∣ self.frameSize.height →
        ∀ p ∈ t, self.currentFrame.toImage.valid p.1 p.2 = true) := by
  have hres := reportTrace_result env self fuel infoList
  have key : ∃ out t n,
      reportFirstDifferencePositionTrace env self fuel infoList = some (out, t, n) ∧
      n ≤ ⌈(self.frameSize.width : ℚ) / 64⌉.toNat * ⌈(self.frameSize.height : ℚ) / 64⌉.toNat ∧
      t.length ≤ 256 * 16 * n ∧
      (4 ∣ self.frameSize.width → 4 ∣ self.frameSize.height →
        ∀ p ∈ t, self.currentFrame.toImage.valid p.1 p.2 = true) := by
    unfold reportFirstDifferencePositionTrace
    by_cases hv : (!inputsValid env self) = true
    · rw [if_pos hv]
      exact ⟨_, _, _, rfl, by simp, by simp, by simp⟩
    · rw [if_neg hv]
      simp only []
      by_cases hmis : self.currentFrame.toImage.width ≠ self.frameSize.width ∨
          self.currentFrame.toImage.height ≠ self.frameSize.height
      · rw [if_pos hmis]
        exact ⟨_, _, _, rfl, by simp, by simp, by simp⟩
      · rw [if_neg hmis]
        by_cases hc : self.codingOrder = CodingOrder_HEVC
        · rw [if_pos hc]
          obtain ⟨res, t, n, hloop, hn, ht, hvalid⟩ := lcuLoopTrace_spec self
            self.currentFrame.toImage fuel (cdiv (self.frameSize.width + 63) 64) hf
            (lcuOrder (cdiv (self.frameSize.width + 63) 64)
              (cdiv (self.frameSize.height + 63) 64))
          rw [lcuOrder_length, cdiv_toNat_eq_ceil, cdiv_toNat_eq_ceil, Nat.mul_comm] at hn
          have hdims : self.currentFrame.toImage.width = self.frameSize.width ∧
              self.currentFrame.toImage.height = self.frameSize.height := by
            constructor <;> by_contra hne
            · exact hmis (Or.inl hne)
            · exact hmis (Or.inr hne)
          have hvalid' : 4 ∣ self.frameSize.width → 4 ∣ self.frameSize.height →
              ∀ p ∈ t, self.currentFrame.toImage.valid p.1 p.2 = true := by
            intro hW hH
            apply hvalid hdims.1 hdims.2 hW hH
            intro c hcm
            rw [mem_lcuOrder] at hcm
            exact ⟨hcm.1, hcm.2.2.1⟩
          rw [hloop]
          rcases res with _ | ⟨lcu, r⟩
          · exact ⟨_, _, _, rfl, hn, ht, hvalid'⟩
          · exact ⟨_, _, _, rfl, hn, ht, hvalid'⟩
        · rw [if_neg hc]
          exact ⟨_, _, _, rfl, by simp, by simp, by simp⟩
  obtain ⟨out, t, n, h1, h2, h3, h4⟩ := key
  refine ⟨out, t, n, h1, ?_, h2, h3, h4⟩
  rw [← hres, h1]
  rfl

/-- C14: for a frame whose width and height are multiples of 4 and an image whose dimensions
equal the frame size, the search returns (fuel for the levels 64 to 4) and every coordinate
it passes to `diffImg.pixel` lies inside the image, so the lookup yields the stored pixel and
never takes its out-of-range branch; this includes the clipped LCUs of a frame that is not
divisible by 64. -/
theorem C14_reads_inside_image (env : Env) (self : videoHandlerDifference) (fuel : Nat)
    (infoList : List infoItem)
    (hw : self.currentFrame.toImage.width = self.frameSize.width)
    (hh : self.currentFrame.toImage.height = self.frameSize.height)
    (hW : 4 ∣ self.frameSize.width) (hH : 4 ∣ self.frameSize.height) (hf : 5 ≤ fuel) :
    ∃ (out : List infoItem) (reads : List (Int × Int)) (n : Nat),
      reportFirstDifferencePositionTrace env self fuel infoList = some (out, reads, n) ∧
      reportFirstDifferencePosition env self fuel infoList = some out ∧
      ∀ p ∈ reads,
        (0 ≤ p.1 ∧ p.1 < self.currentFrame.toImage.width ∧
          0 ≤ p.2 ∧ p.2 < self.currentFrame.toImage.height) ∧
        self.currentFrame.toImage.valid p.1 p.2 = true ∧
        self.currentFrame.toImage.pixel p.1 p.2 = self.currentFrame.toImage.data p.1 p.2 := by
  obtain ⟨out, t, n, h1, h2, _, _, hvalid⟩ := reportTrace_spec env self fuel infoList hf
  refine ⟨out, t, n, h1, h2, ?_⟩
  intro p hp
  have hv := hvalid hW hH p hp
  have hrange : 0 ≤ p.1 ∧ p.1 < self.currentFrame.toImage.width ∧
      0 ≤ p.2 ∧ p.2 < self.currentFrame.toImage.height := by
    simp only [QImage.valid, Bool.and_eq_true, decide_eq_true_eq] at hv
    omega
  exact ⟨hrange, hv, pixel_in_range _ _ _ hrange⟩

/-- Witness for C14: a 72x8 frame (one full LCU and a clipped one) whose only differing pixel
is (70, 5). -/
theorem C14_reads_inside_image_witness :
    ∃ (out : List infoItem) (reads : List (Int × Int)) (n : Nat),
      reportFirstDifferencePositionTrace exampleEnv
        (exampleHandler 72 8 false (onePixel 70 5)) 5 [] = some (out, reads, n) ∧
      reportFirstDifferencePosition exampleEnv
        (exampleHandler 72 8 false (onePixel 70 5)) 5 [] = some out ∧
      ∀ p ∈ reads,
        (0 ≤ p.1 ∧ p.1 < (exampleHandler 72 8 false (onePixel 70 5)).currentFrame.toImage.width ∧
          0 ≤ p.2 ∧
          p.2 < (exampleHandler 72 8 false (onePixel 70 5)).currentFrame.toImage.height) ∧
        (exampleHandler 72 8 false (onePixel 70 5)).currentFrame.toImage.valid p.1 p.2 = true ∧
        (exampleHandler 72 8 false (onePixel 70 5)).currentFrame.toImage.pixel p.1 p.2 =
          (exampleHandler 72 8 false (onePixel 70 5)).currentFrame.toImage.data p.1 p.2 :=
  C14_reads_inside_image exampleEnv (exampleHandler 72 8 false (onePixel 70 5)) 5 []
    (by decide) (by decide) (by decide) (by decide) (by decide)

/-- On a 2x2 frame the leaf at (0, 0) reads (0, 0), (0, 1) and then (0, 2), a coordinate
outside the image: the record of reads does show reads out of range when the sides are not
multiples of 4. -/
theorem reads_of_frame_2x2 :
    reportFirstDifferencePositionTrace exampleEnv
      (exampleHandler 2 2 false fun _ _ => grayPixel) 5 [] =
        some (locationReport 0 0 0 0, [(0, 0), (0, 1), (0, 2)], 1) := by decide

theorem scanLeaves_partIndex_le (W H : Int) (m : Bool) (img : QImage) (l : List (Int × Int))
    (r : Refs) :
    r.partIndex ≤ (scanLeaves W H m img l r).2.partIndex ∧
      (scanLeaves W H m img l r).2.partIndex ≤ r.partIndex + l.length := by
  induction l generalizing r with
  | nil => simp [scanLeaves]
  | cons p rest ih =>
    simp only [scanLeaves, List.length_cons, Nat.cast_add, Nat.cast_one]
    split
    · have := ih r
      omega
    · split
      · simp only []
        omega
      · have := ih { r with partIndex := r.partIndex + 1 }
        simp only [] at this
        omega

/-- C16: `hierarchicalPosition` called with block size 64 returns whenever it has fuel for
five nested calls (the sizes 64, 32, 16, 8, 4), and on a block that starts inside the frame
fuel for four is not enough, so the depth below the root is exactly 4; it reads at most
256 * 16 pixels and counts at most 256 clean leaves.  The whole report returns, after visiting
at most `ceil(width/64) * ceil(height/64)` LCUs and reading at most 256 * 16 pixels in each. -/
theorem C16_search_terminates (env : Env) (self : videoHandlerDifference) (img : QImage)
    (fuel : Nat) (x y : Int) (r : Refs) (infoList : List infoItem) (hf : 5 ≤ fuel) :
    (∃ (found : Bool) (q : Refs) (reads : List (Int × Int)),
      hierarchicalPosition self img fuel x y 64 r = some (found, q) ∧
      hierarchicalPositionTrace self img fuel x y 64 r = some (found, q, reads) ∧
      reads.length ≤ 256 * 16 ∧
      r.partIndex ≤ q.partIndex ∧ q.partIndex ≤ r.partIndex + 256) ∧
    (x < self.frameSize.width → y < self.frameSize.height →
      hierarchicalPosition self img 4 x y 64 r = none) ∧
    (∃ (out : List infoItem) (reads : List (Int × Int)) (n : Nat),
      reportFirstDifferencePosition env self fuel infoList = some out ∧
      reportFirstDifferencePositionTrace env self fuel infoList = some (out, reads, n) ∧
      n ≤ ⌈(self.frameSize.width : ℚ) / 64⌉.toNat * ⌈(self.frameSize.height : ℚ) / 64⌉.toNat ∧
      reads.length ≤ 256 * 16 * n) := by
  have h64 : (64 : Int) = 4 * 2 ^ 4 := by norm_num
  refine ⟨?_, ?_, ?_⟩
  · have hlen := scanTrace_length self.frameSize.width self.frameSize.height
      self.markDifference img (zLeaves 4 x y)
    have hpi := scanLeaves_partIndex_le self.frameSize.width self.frameSize.height
      self.markDifference img (zLeaves 4 x y) r
    rw [zLeaves_length] at hlen hpi
    refine ⟨(scanLeaves self.frameSize.width self.frameSize.height self.markDifference img
        (zLeaves 4 x y) r).1,
      (scanLeaves self.frameSize.width self.frameSize.height self.markDifference img
        (zLeaves 4 x y) r).2,
      scanTrace self.frameSize.width self.frameSize.height self.markDifference img
        (zLeaves 4 x y), ?_, ?_, ?_, hpi.1, ?_⟩
    · rw [h64, hierarchicalPosition_eq_scan self img 4 fuel _ _ _ (by omega)]
    · rw [h64, hierarchicalPositionTrace_eq_scan self img 4 fuel _ _ _ (by omega)]
    · omega
    · have := hpi.2
      norm_num at this
      exact this
  · intro hx hy
    have hin : ¬ (x ≥ self.frameSize.width ∨ y ≥ self.frameSize.height) := by omega
    have c1 : cdiv 64 2 = 32 := by decide
    have c2 : cdiv 32 2 = 16 := by decide
    have c3 : cdiv 16 2 = 8 := by decide
    have n1 : (64 : Int) ≠ 4 := by decide
    have n2 : (32 : Int) ≠ 4 := by decide
    have n3 : (16 : Int) ≠ 4 := by decide
    have n4 : (8 : Int) ≠ 4 := by decide
    simp only [hierarchicalPosition, hin, if_false, c1, c2, c3, n1, n2, n3, n4]
  · obtain ⟨out, t, n, h1, h2, h3, h4, _⟩ := reportTrace_spec env self fuel infoList hf
    exact ⟨out, t, n, h2, h1, h3, h4⟩

/-- Witness for C16: the LCU at (0, 0) of an 8x8 frame whose only differing pixel is (7, 7),
with fuel 5. -/
theorem C16_search_terminates_witness :
    (∃ (found : Bool) (q : Refs) (reads : List (Int × Int)),
      hierarchicalPosition (exampleHandler 8 8 false (onePixel 7 7))
        (exampleHandler 8 8 false (onePixel 7 7)).currentFrame.toImage 5 0 0 64 ⟨0, 0, 0⟩ =
          some (found, q) ∧
      hierarchicalPositionTrace (exampleHandler 8 8 false (onePixel 7 7))
        (exampleHandler 8 8 false (onePixel 7 7)).currentFrame.toImage 5 0 0 64 ⟨0, 0, 0⟩ =
          some (found, q, reads) ∧
      reads.length ≤ 256 * 16 ∧
      (⟨0, 0, 0⟩ : Refs).partIndex ≤ q.partIndex ∧
      q.partIndex ≤ (⟨0, 0, 0⟩ : Refs).partIndex + 256) ∧
    hierarchicalPosition (exampleHandler 8 8 false (onePixel 7 7))
      (exampleHandler 8 8 false (onePixel 7 7)).currentFrame.toImage 4 0 0 64 ⟨0, 0, 0⟩ =
        none :=
  have h := C16_search_terminates exampleEnv (exampleHandler 8 8 false (onePixel 7 7))
    (exampleHandler 8 8 false (onePixel 7 7)).currentFrame.toImage 5 0 0 ⟨0, 0, 0⟩ []
    (by decide)
  ⟨h.1, h.2.1 (by decide) (by decide)⟩

/-! ## The report in terms of the first LCU and the first leaf with a difference -/

/-- The report when the list of LCUs and the list of leaves of an LCU are split at the first
element with a difference. -/
theorem report_of_split (env : Env) (self : videoHandlerDifference) (fuel : Nat)
    (infoList : List infoItem) (hv : inputsValid env self = true)
    (hc : self.codingOrder = CodingOrder_HEVC)
    (hw : self.currentFrame.toImage.width = self.frameSize.width)
    (hh : self.currentFrame.toImage.height = self.frameSize.height) (hf : 5 ≤ fuel)
    (c : Int × Int) (as bs : List (Int × Int)) (pre : List (Int × Int)) (p : Int × Int)
    (post : List (Int × Int))
    (h1 : lcuOrder (cdiv (self.frameSize.width + 63) 64)
      (cdiv (self.frameSize.height + 63) 64) = as ++ c :: bs)
    (h2 : ∀ a ∈ as, lcuDirty self.frameSize.width self.frameSize.height self.markDifference
      self.currentFrame.toImage a = false)
    (h3 : zLeaves 4 (c.1 * 64) (c.2 * 64) = pre ++ p :: post)
    (h4 : ∀ q ∈ pre, leafDirty self.frameSize.width self.frameSize.height self.markDifference
      self.currentFrame.toImage q = false)
    (h5 : leafDirty self.frameSize.width self.frameSize.height self.markDifference
      self.currentFrame.toImage p = true) :
    reportFirstDifferencePosition env self fuel infoList =
      some (infoList ++ locationReport (lcuIndex (cdiv (self.frameSize.width + 63) 64) c)
        p.1 p.2 (countInFrame self.frameSize.width self.frameSize.height pre)) := by
  have hcd : lcuDirty self.frameSize.width self.frameSize.height self.markDifference
      self.currentFrame.toImage c = true := by
    unfold lcuDirty
    rw [h3]
    simp [h5]
  have hfindc : (lcuOrder (cdiv (self.frameSize.width + 63) 64)
      (cdiv (self.frameSize.height + 63) 64)).find?
      (lcuDirty self.frameSize.width self.frameSize.height self.markDifference
        self.currentFrame.toImage) = some c := by
    rw [List.find?_eq_some]
    exact ⟨hcd, as, bs, h1, fun a ha => by simp [h2 a ha]⟩
  have hfindp : (zLeaves 4 (c.1 * 64) (c.2 * 64)).find?
      (leafDirty self.frameSize.width self.frameSize.height self.markDifference
        self.currentFrame.toImage) = some p := by
    rw [List.find?_eq_some]
    exact ⟨h5, pre, post, h3, fun a ha => by simp [h4 a ha]⟩
  have htake : (zLeaves 4 (c.1 * 64) (c.2 * 64)).takeWhile
      (fun q => !leafDirty self.frameSize.width self.frameSize.height self.markDifference
        self.currentFrame.toImage q) = pre := by
    rw [h3, List.takeWhile_append_of_pos (by
      intro q hq
      simp [h4 q hq])]
    simp [List.takeWhile_cons, h5]
  rw [report_eq env self fuel infoList hv hw hh hc hf, hfindc]
  simp only [scanLeaves_eq, hfindp, htake, zero_add]

/-- When a location is reported, the list of LCUs and the list of leaves of the reported LCU
split at the first element with a difference. -/
theorem report_split_exists (env : Env) (self : videoHandlerDifference) (fuel : Nat)
    (infoList : List infoItem) (hv : inputsValid env self = true)
    (hc : self.codingOrder = CodingOrder_HEVC)
    (hw : self.currentFrame.toImage.width = self.frameSize.width)
    (hh : self.currentFrame.toImage.height = self.frameSize.height) (hf : 5 ≤ fuel)
    (hrep : ∃ lcu firstX firstY partIndex : Int,
      reportFirstDifferencePosition env self fuel infoList =
        some (infoList ++ locationReport lcu firstX firstY partIndex)) :
    ∃ (c : Int × Int) (as bs pre : List (Int × Int)) (p : Int × Int)
      (post : List (Int × Int)),
      lcuOrder (cdiv (self.frameSize.width + 63) 64)
        (cdiv (self.frameSize.height + 63) 64) = as ++ c :: bs ∧
      (∀ a ∈ as, lcuDirty self.frameSize.width self.frameSize.height self.markDifference
        self.currentFrame.toImage a = false) ∧
      zLeaves 4 (c.1 * 64) (c.2 * 64) = pre ++ p :: post ∧
      (∀ q ∈ pre, leafDirty self.frameSize.width self.frameSize.height self.markDifference
        self.currentFrame.toImage q = false) ∧
      leafDirty self.frameSize.width self.frameSize.height self.markDifference
        self.currentFrame.toImage p = true := by
  cases hfind : (lcuOrder (cdiv (self.frameSize.width + 63) 64)
      (cdiv (self.frameSize.height + 63) 64)).find?
      (lcuDirty self.frameSize.width self.frameSize.height self.markDifference
        self.currentFrame.toImage) with
  | none =>
    exfalso
    obtain ⟨a, b, c, d, h⟩ := hrep
    rw [report_eq env self fuel infoList hv hw hh hc hf, hfind] at h
    exact locationReport_ne_identical infoList a b c d (Option.some.inj h).symm
  | some c =>
    obtain ⟨hcd, as, bs, h1, h2⟩ := List.find?_eq_some.mp hfind
    have hany : (zLeaves 4 (c.1 * 64) (c.2 * 64)).any
        (leafDirty self.frameSize.width self.frameSize.height self.markDifference
          self.currentFrame.toImage) = true := hcd
    cases hleaf : (zLeaves 4 (c.1 * 64) (c.2 * 64)).find?
        (leafDirty self.frameSize.width self.frameSize.height self.markDifference
          self.currentFrame.toImage) with
    | none =>
      exfalso
      obtain ⟨q, hq, hqd⟩ := List.any_eq_true.mp hany
      exact List.find?_eq_none.mp hleaf q hq hqd
    | some p =>
      obtain ⟨hpd, pre, post, h3, h4⟩ := List.find?_eq_some.mp hleaf
      refine ⟨c, as, bs, pre, p, post, h1, ?_, h3, ?_, hpd⟩
      · intro a ha
        simpa using h2 a ha
      · intro q hq
        simpa using h4 q hq

theorem countInFrame_bounds (W H : Int) (l : List (Int × Int)) :
    0 ≤ countInFrame W H l ∧ countInFrame W H l ≤ l.length := by
  unfold countInFrame
  have := List.length_filter_le (leafInFrame W H) l
  omega

theorem lcuIndex_div_mod (wL x y : Int) (hx0 : 0 ≤ x) (hx : x < wL) :
    (y * wL + x) % wL = x ∧ (y * wL + x) / wL = y := by
  have hne : wL ≠ 0 := by omega
  constructor
  · rw [add_comm, Int.add_mul_emod_self, Int.emod_eq_of_lt hx0 hx]
  · rw [add_comm, Int.add_mul_ediv_right _ _ hne, Int.ediv_eq_zero_of_lt hx0 hx, zero_add]

/-- C18: every reported location is well-formed: `firstX` and `firstY` are multiples of 4
inside the frame, the point lies in the reported LCU (`firstX / 64` is the LCU index modulo
the number of LCU columns and `firstY / 64` is the index divided by it), the LCU index is
below `ceil(width/64) * ceil(height/64)` (written `(width + 63) / 64 * ((height + 63) / 64)`),
and `partIndex` is between 0 and 255. -/
theorem C18_location_well_formed (env : Env) (self : videoHandlerDifference) (fuel : Nat)
    (infoList : List infoItem) (hv : inputsValid env self = true)
    (hc : self.codingOrder = CodingOrder_HEVC)
    (hw : self.currentFrame.toImage.width = self.frameSize.width)
    (hh : self.currentFrame.toImage.height = self.frameSize.height) (hf : 5 ≤ fuel)
    (hrep : ∃ lcu firstX firstY partIndex : Int,
      reportFirstDifferencePosition env self fuel infoList =
        some (infoList ++ locationReport lcu firstX firstY partIndex)) :
    ∃ lcu firstX firstY partIndex : Int,
      reportFirstDifferencePosition env self fuel infoList =
        some (infoList ++
          [infoItem.mk "First Difference LCU" (QString.number lcu),
           infoItem.mk "First Difference X" (QString.number firstX),
           infoItem.mk "First Difference Y" (QString.number firstY),
           infoItem.mk "First Difference partIndex" (QString.number partIndex)]) ∧
      4 ∣ firstX ∧ 4 ∣ firstY ∧
      0 ≤ firstX ∧ firstX < self.frameSize.width ∧
      0 ≤ firstY ∧ firstY < self.frameSize.height ∧
      firstX / 64 = lcu % ((self.frameSize.width + 63) / 64) ∧
      firstY / 64 = lcu / ((self.frameSize.width + 63) / 64) ∧
      0 ≤ lcu ∧
      lcu < (self.frameSize.width + 63) / 64 * ((self.frameSize.height + 63) / 64) ∧
      0 ≤ partIndex ∧ partIndex ≤ 255 := by
  obtain ⟨c, as, bs, pre, p, post, h1, h2, h3, h4, h5⟩ :=
    report_split_exists env self fuel infoList hv hc hw hh hf hrep
  have hreport := report_of_split env self fuel infoList hv hc hw hh hf c as bs pre p post
    h1 h2 h3 h4 h5
  have hW0 : 0 ≤ self.frameSize.width := by
    rw [← hw]
    exact Int.ofNat_nonneg _
  have hH0 : 0 ≤ self.frameSize.height := by
    rw [← hh]
    exact Int.ofNat_nonneg _
  have ewL : cdiv (self.frameSize.width + 63) 64 = (self.frameSize.width + 63) / 64 :=
    cdiv_of_nonneg (by omega) (by norm_num)
  have ehL : cdiv (self.frameSize.height + 63) 64 = (self.frameSize.height + 63) / 64 :=
    cdiv_of_nonneg (by omega) (by norm_num)
  have hcm : c ∈ lcuOrder (cdiv (self.frameSize.width + 63) 64)
      (cdiv (self.frameSize.height + 63) 64) := by
    rw [h1]
    simp
  rw [mem_lcuOrder, ewL, ehL] at hcm
  rw [ewL] at hreport
  have hpm : p ∈ zLeaves 4 (c.1 * 64) (c.2 * 64) := by
    rw [h3]
    simp
  have hz := zLeaves_lcu c p hpm
  have hin : p.1 < self.frameSize.width ∧ p.2 < self.frameSize.height := by
    simp only [leafDirty, leafInFrame, Bool.and_eq_true, decide_eq_true_eq] at h5
    exact h5.1
  have hdm := lcuIndex_div_mod ((self.frameSize.width + 63) / 64) c.1 c.2 hcm.1 hcm.2.1
  have hcount := countInFrame_bounds self.frameSize.width self.frameSize.height pre
  have hlen : pre.length + (post.length + 1) = 256 := by
    have := congrArg List.length h3
    rw [zLeaves_length, List.length_append, List.length_cons] at this
    omega
  have hlt : c.2 * ((self.frameSize.width + 63) / 64) + c.1 <
      (self.frameSize.width + 63) / 64 * ((self.frameSize.height + 63) / 64) := by
    have h6 : (c.2 + 1) * ((self.frameSize.width + 63) / 64) ≤
        (self.frameSize.height + 63) / 64 * ((self.frameSize.width + 63) / 64) :=
      mul_le_mul_of_nonneg_right (by omega) (by omega)
    have h7 : (c.2 + 1) * ((self.frameSize.width + 63) / 64) =
        c.2 * ((self.frameSize.width + 63) / 64) + (self.frameSize.width + 63) / 64 := by ring
    have h8 : (self.frameSize.height + 63) / 64 * ((self.frameSize.width + 63) / 64) =
        (self.frameSize.width + 63) / 64 * ((self.frameSize.height + 63) / 64) := by ring
    omega
  have hge : 0 ≤ c.2 * ((self.frameSize.width + 63) / 64) + c.1 := by
    have : 0 ≤ c.2 * ((self.frameSize.width + 63) / 64) := mul_nonneg hcm.2.2.1 (by omega)
    omega
  refine ⟨_, _, _, _, hreport, by omega, by omega, by omega, hin.1, by omega, hin.2, ?_, ?_,
    hge, hlt, hcount.1, by omega⟩
  · simp only [lcuIndex]
    rw [hdm.1]
    omega
  · simp only [lcuIndex]
    rw [hdm.2]
    omega

/-- Witness for C18: a 72x8 frame whose only differing pixel is (70, 5). -/
theorem C18_location_well_formed_witness :
    ∃ lcu firstX firstY partIndex : Int,
      reportFirstDifferencePosition exampleEnv (exampleHandler 72 8 false (onePixel 70 5)) 5 []
        = some ([] ++
          [infoItem.mk "First Difference LCU" (QString.number lcu),
           infoItem.mk "First Difference X" (QString.number firstX),
           infoItem.mk "First Difference Y" (QString.number firstY),
           infoItem.mk "First Difference partIndex" (QString.number partIndex)]) ∧
      4 ∣ firstX ∧ 4 ∣ firstY ∧
      0 ≤ firstX ∧ firstX < (exampleHandler 72 8 false (onePixel 70 5)).frameSize.width ∧
      0 ≤ firstY ∧ firstY < (exampleHandler 72 8 false (onePixel 70 5)).frameSize.height ∧
      firstX / 64 =
        lcu % (((exampleHandler 72 8 false (onePixel 70 5)).frameSize.width + 63) / 64) ∧
      firstY / 64 =
        lcu / (((exampleHandler 72 8 false (onePixel 70 5)).frameSize.width + 63) / 64) ∧
      0 ≤ lcu ∧
      lcu < ((exampleHandler 72 8 false (onePixel 70 5)).frameSize.width + 63) / 64 *
        (((exampleHandler 72 8 false (onePixel 70 5)).frameSize.height + 63) / 64) ∧
      0 ≤ partIndex ∧ partIndex ≤ 255 :=
  C18_location_well_formed exampleEnv (exampleHandler 72 8 false (onePixel 70 5)) 5 []
    (by decide) (by decide) (by decide) (by decide) (by decide) ⟨1, 68, 4, 3, by decide⟩

/-! ## The quadrant order and the Morton index -/

theorem takeWhile_append_of_mem (l1 l2 : List (Int × Int)) (p : Int × Int) (hp : p ∈ l1) :
    (l1 ++ l2).takeWhile (fun q => q != p) = l1.takeWhile fun q => q != p := by
  induction l1 with
  | nil => simp at hp
  | cons a rest ih =>
    by_cases ha : a = p
    · simp [List.takeWhile_cons, ha]
    · have hrest : p ∈ rest := by
        rcases List.mem_cons.mp hp with h | h
        · exact absurd h.symm ha
        · exact h
      simp only [List.cons_append, List.takeWhile_cons]
      have hne : (a != p) = true := by simpa using ha
      rw [hne]
      simp only [if_true]
      rw [ih hrest]

theorem takeWhile_append_of_not_mem (l1 l2 : List (Int × Int)) (p : Int × Int)
    (hp : p ∉ l1) :
    (l1 ++ l2).takeWhile (fun q => q != p) = l1 ++ l2.takeWhile fun q => q != p := by
  apply List.takeWhile_append_of_pos
  intro q hq
  have : q ≠ p := fun h => hp (h ▸ hq)
  simpa using this

/-- The number of leaves before the leaf at column `i`, row `j` in the quadrant order of a
block of `2^k x 2^k` leaves. -/
theorem takeWhile_zLeaves_length (k : Nat) :
    ∀ (x y i j : Int), 0 ≤ i → i < 2 ^ k → 0 ≤ j → j < 2 ^ k →
      (((zLeaves k x y).takeWhile fun q => q != (x + 4 * i, y + 4 * j)).length : Int) =
        quadIndex k i j := by
  induction k with
  | zero =>
    intro x y i j hi0 hi hj0 hj
    have hi' : i = 0 := by
      rw [pow_zero] at hi
      omega
    have hj' : j = 0 := by
      rw [pow_zero] at hj
      omega
    subst hi' hj'
    simp [zLeaves, quadIndex, List.takeWhile_cons]
  | succ k ih =>
    intro x y i j hi0 hi hj0 hj
    have h2 : (2 : Int) ^ (k + 1) = 2 * 2 ^ k := by ring
    have hpos : (0 : Int) < 2 ^ k := by positivity
    rw [h2] at hi hj
    have hlen : ∀ a b : Int, (((zLeaves k a b).length : Nat) : Int) = 4 ^ k := by
      intro a b
      rw [zLeaves_length]
      push_cast
      rfl
    have m0 : (x + 4 * i, y + 4 * j) ∈ zLeaves k x y ↔ i < 2 ^ k ∧ j < 2 ^ k := by
      rw [mem_zLeaves]
      constructor
      · rintro ⟨a, b, _, ha, _, hb, he⟩
        have e1 := (Prod.mk.inj he).1
        have e2 := (Prod.mk.inj he).2
        constructor <;> omega
      · rintro ⟨ha, hb⟩
        exact ⟨i, j, hi0, ha, hj0, hb, rfl⟩
    have m1 : (x + 4 * i, y + 4 * j) ∈ zLeaves k (x + 4 * 2 ^ k) y ↔
        2 ^ k ≤ i ∧ j < 2 ^ k := by
      rw [mem_zLeaves]
      constructor
      · rintro ⟨a, b, _, ha, _, hb, he⟩
        have e1 := (Prod.mk.inj he).1
        have e2 := (Prod.mk.inj he).2
        constructor <;> omega
      · rintro ⟨ha, hb⟩
        exact ⟨i - 2 ^ k, j, by omega, by omega, hj0, hb,
          Prod.ext (by simp only []; omega) rfl⟩
    have m2 : (x + 4 * i, y + 4 * j) ∈ zLeaves k x (y + 4 * 2 ^ k) ↔
        i < 2 ^ k ∧ 2 ^ k ≤ j := by
      rw [mem_zLeaves]
      constructor
      · rintro ⟨a, b, _, ha, _, hb, he⟩
        have e1 := (Prod.mk.inj he).1
        have e2 := (Prod.mk.inj he).2
        constructor <;> omega
      · rintro ⟨ha, hb⟩
        exact ⟨i, j - 2 ^ k, hi0, ha, by omega, by omega,
          Prod.ext rfl (by simp only []; omega)⟩
    have e1 : (x + 4 * i, y + 4 * j) = (x + 4 * 2 ^ k + 4 * (i - 2 ^ k), y + 4 * j) :=
      Prod.ext (by simp only []; omega) rfl
    have e2 : (x + 4 * i, y + 4 * j) = (x + 4 * i, y + 4 * 2 ^ k + 4 * (j - 2 ^ k)) :=
      Prod.ext rfl (by simp only []; omega)
    have e3 : (x + 4 * i, y + 4 * j) =
        (x + 4 * 2 ^ k + 4 * (i - 2 ^ k), y + 4 * 2 ^ k + 4 * (j - 2 ^ k)) :=
      Prod.ext (by simp only []; omega) (by simp only []; omega)
    simp only [zLeaves, quadIndex]
    by_cases hiP : i < 2 ^ k <;> by_cases hjP : j < 2 ^ k
    · have hm : (x + 4 * i, y + 4 * j) ∈ zLeaves k x y := m0.mpr ⟨hiP, hjP⟩
      rw [takeWhile_append_of_mem _ _ _ (by simp [hm]),
        takeWhile_append_of_mem _ _ _ (by simp [hm]),
        takeWhile_append_of_mem _ _ _ hm, ih x y i j hi0 hiP hj0 hjP]
      simp [hiP, hjP]
    · have hn0 : (x + 4 * i, y + 4 * j) ∉ zLeaves k x y := fun h => hjP (m0.mp h).2
      have hn1 : (x + 4 * i, y + 4 * j) ∉ zLeaves k (x + 4 * 2 ^ k) y :=
        fun h => hjP (m1.mp h).2
      have hm : (x + 4 * i, y + 4 * j) ∈ zLeaves k x (y + 4 * 2 ^ k) :=
        m2.mpr ⟨hiP, by omega⟩
      rw [takeWhile_append_of_mem _ _ _ (by simp [hm]),
        takeWhile_append_of_not_mem _ _ _ (by simp [hn0, hn1]), List.length_append,
        List.length_append]
      push_cast
      rw [hlen, hlen]
      nth_rewrite 1 [e2]
      rw [ih x (y + 4 * 2 ^ k) i (j - 2 ^ k) hi0 hiP (by omega) (by omega)]
      simp only [hiP, hjP, if_true, if_false]
      ring
    · have hn0 : (x + 4 * i, y + 4 * j) ∉ zLeaves k x y := fun h => hiP (m0.mp h).1
      have hm : (x + 4 * i, y + 4 * j) ∈ zLeaves k (x + 4 * 2 ^ k) y :=
        m1.mpr ⟨by omega, hjP⟩
      rw [takeWhile_append_of_mem _ _ _ (by simp [hm]),
        takeWhile_append_of_mem _ _ _ (by simp [hm]),
        takeWhile_append_of_not_mem _ _ _ hn0, List.length_append]
      push_cast
      rw [hlen]
      nth_rewrite 1 [e1]
      rw [ih (x + 4 * 2 ^ k) y (i - 2 ^ k) j (by omega) (by omega) hj0 hjP]
      simp only [hiP, hjP, if_true, if_false]
      ring
    · have hn0 : (x + 4 * i, y + 4 * j) ∉ zLeaves k x y := fun h => hiP (m0.mp h).1
      have hn1 : (x + 4 * i, y + 4 * j) ∉ zLeaves k (x + 4 * 2 ^ k) y :=
        fun h => hjP (m1.mp h).2
      have hn2 : (x + 4 * i, y + 4 * j) ∉ zLeaves k x (y + 4 * 2 ^ k) :=
        fun h => hiP (m2.mp h).1
      rw [takeWhile_append_of_not_mem _ _ _ (by simp [hn0, hn1, hn2]), List.length_append,
        List.length_append, List.length_append]
      push_cast
      rw [hlen, hlen, hlen]
      nth_rewrite 1 [e3]
      rw [ih (x + 4 * 2 ^ k) (y + 4 * 2 ^ k) (i - 2 ^ k) (j - 2 ^ k) (by omega) (by omega)
        (by omega) (by omega)]
      simp only [hiP, hjP, if_false]
      ring

theorem mortonIndex_eq (lx ly : Int) :
    mortonIndex lx ly =
      (lx % 2 + 2 * (ly % 2)) + (lx / 2 % 2 + 2 * (ly / 2 % 2)) * 4 +
        (lx / 4 % 2 + 2 * (ly / 4 % 2)) * 16 + (lx / 8 % 2 + 2 * (ly / 8 % 2)) * 64 := by
  simp only [mortonIndex, Finset.sum_range_succ, Finset.sum_range_zero]
  norm_num

theorem quadIndex_four_nat :
    ∀ i < 16, ∀ j < 16,
      quadIndex 4 ((i : Nat) : Int) ((j : Nat) : Int) =
        (((i : Nat) : Int) % 2 + 2 * (((j : Nat) : Int) % 2)) +
          (((i : Nat) : Int) / 2 % 2 + 2 * (((j : Nat) : Int) / 2 % 2)) * 4 +
          (((i : Nat) : Int) / 4 % 2 + 2 * (((j : Nat) : Int) / 4 % 2)) * 16 +
          (((i : Nat) : Int) / 8 % 2 + 2 * (((j : Nat) : Int) / 8 % 2)) * 64 := by
  decide

/-- In a block of 16 x 16 leaves the position in quadrant order is the Morton index. -/
theorem quadIndex_four (i j : Int) (hi0 : 0 ≤ i) (hi : i < 16) (hj0 : 0 ≤ j) (hj : j < 16) :
    quadIndex 4 i j = mortonIndex i j := by
  rw [mortonIndex_eq]
  have h := quadIndex_four_nat i.toNat (by omega) j.toNat (by omega)
  rw [Int.toNat_of_nonneg hi0, Int.toNat_of_nonneg hj0] at h
  exact h

/-- C17: when the reported LCU lies entirely inside the frame, `partIndex` is the Z-order
(Morton) index of the reported leaf within the LCU: with `lx = (firstX mod 64) / 4` and
`ly = (firstY mod 64) / 4`, `partIndex` is the sum over `i` in 0..3 of
`(bit_i(lx) + 2 * bit_i(ly)) * 4^i`. -/
theorem C17_partIndex_is_morton (env : Env) (self : videoHandlerDifference) (fuel : Nat)
    (infoList : List infoItem) (hv : inputsValid env self = true)
    (hc : self.codingOrder = CodingOrder_HEVC)
    (hw : self.currentFrame.toImage.width = self.frameSize.width)
    (hh : self.currentFrame.toImage.height = self.frameSize.height) (hf : 5 ≤ fuel)
    (hrep : ∃ lcu firstX firstY partIndex : Int,
      reportFirstDifferencePosition env self fuel infoList =
        some (infoList ++ locationReport lcu firstX firstY partIndex)) :
    ∃ lcu firstX firstY partIndex : Int,
      reportFirstDifferencePosition env self fuel infoList =
        some (infoList ++
          [infoItem.mk "First Difference LCU" (QString.number lcu),
           infoItem.mk "First Difference X" (QString.number firstX),
           infoItem.mk "First Difference Y" (QString.number firstY),
           infoItem.mk "First Difference partIndex" (QString.number partIndex)]) ∧
      (firstX / 64 * 64 + 64 ≤ self.frameSize.width →
        firstY / 64 * 64 + 64 ≤ self.frameSize.height →
        partIndex = ∑ i ∈ Finset.range 4,
          ((firstX % 64 / 4) / 2 ^ i % 2 + 2 * ((firstY % 64 / 4) / 2 ^ i % 2)) * 4 ^ i) := by
  obtain ⟨c, as, bs, pre, p, post, h1, h2, h3, h4, h5⟩ :=
    report_split_exists env self fuel infoList hv hc hw hh hf hrep
  have hreport := report_of_split env self fuel infoList hv hc hw hh hf c as bs pre p post
    h1 h2 h3 h4 h5
  refine ⟨_, _, _, _, hreport, ?_⟩
  intro hinW hinH
  have hpm : p ∈ zLeaves 4 (c.1 * 64) (c.2 * 64) := by
    rw [h3]
    simp
  have hz := zLeaves_lcu c p hpm
  have hne : ∀ q ∈ pre, q ≠ p := by
    intro q hq hqp
    have := h4 q hq
    rw [hqp, h5] at this
    exact Bool.noConfusion this
  have hpre := pre_eq_takeWhile _ pre post p h3 hne
  have hp : p = (c.1 * 64 + 4 * ((p.1 - c.1 * 64) / 4), c.2 * 64 + 4 * ((p.2 - c.2 * 64) / 4)) :=
    Prod.ext (by simp only []; omega) (by simp only []; omega)
  have h16 : (2 : Int) ^ 4 = 16 := by norm_num
  have hidx := takeWhile_zLeaves_length 4 (c.1 * 64) (c.2 * 64) ((p.1 - c.1 * 64) / 4)
    ((p.2 - c.2 * 64) / 4) (by omega) (by rw [h16]; omega) (by omega) (by rw [h16]; omega)
  rw [← hp, ← hpre] at hidx
  have hall : ∀ q ∈ pre, leafInFrame self.frameSize.width self.frameSize.height q = true := by
    intro q hq
    have hqm : q ∈ zLeaves 4 (c.1 * 64) (c.2 * 64) := by
      rw [h3]
      exact List.mem_append_left _ hq
    have hzq := zLeaves_lcu c q hqm
    simp only [leafInFrame, Bool.and_eq_true, decide_eq_true_eq]
    omega
  have hcount : countInFrame self.frameSize.width self.frameSize.height pre = pre.length := by
    unfold countInFrame
    rw [List.filter_eq_self.mpr hall]
  have hlx : p.1 % 64 / 4 = (p.1 - c.1 * 64) / 4 := by omega
  have hly : p.2 % 64 / 4 = (p.2 - c.2 * 64) / 4 := by omega
  show countInFrame self.frameSize.width self.frameSize.height pre =
    mortonIndex (p.1 % 64 / 4) (p.2 % 64 / 4)
  rw [hcount, hidx, hlx, hly]
  exact quadIndex_four _ _ (by omega) (by omega) (by omega) (by omega)

/-- Witness for C17: a 64x64 frame whose only differing pixel is (13, 6); the leaf is
(12, 4), column 3 and row 1 of the LCU, and the Morton index is 7. -/
theorem C17_partIndex_is_morton_witness :
    ∃ lcu firstX firstY partIndex : Int,
      reportFirstDifferencePosition exampleEnv (exampleHandler 64 64 false (onePixel 13 6))
          5 [] =
        some ([] ++
          [infoItem.mk "First Difference LCU" (QString.number lcu),
           infoItem.mk "First Difference X" (QString.number firstX),
           infoItem.mk "First Difference Y" (QString.number firstY),
           infoItem.mk "First Difference partIndex" (QString.number partIndex)]) ∧
      (firstX / 64 * 64 + 64 ≤
          (exampleHandler 64 64 false (onePixel 13 6)).frameSize.width →
        firstY / 64 * 64 + 64 ≤
          (exampleHandler 64 64 false (onePixel 13 6)).frameSize.height →
        partIndex = ∑ i ∈ Finset.range 4,
          ((firstX % 64 / 4) / 2 ^ i % 2 + 2 * ((firstY % 64 / 4) / 2 ^ i % 2)) * 4 ^ i) :=
  C17_partIndex_is_morton exampleEnv (exampleHandler 64 64 false (onePixel 13 6)) 5 []
    (by decide) (by decide) (by decide) (by decide) (by decide)
    ⟨0, 12, 4, 7, by decide⟩

/-! ## Dependence of the report on the pixels -/

theorem isDifference_congr (m : Bool) (a b : QRgb) (hr : qRed a = qRed b)
    (hg : qGreen a = qGreen b) (hb : qBlue a = qBlue b) :
    isDifference m a = isDifference m b := by
  unfold isDifference
  rw [hr, hg, hb]

/-- The test of a leaf gives the same result on two images of the same size whose pixels
inside the images agree in the three colour channels on the 16 coordinates of the leaf. -/
theorem leafDirty_congr (W H : Int) (m : Bool) (img1 img2 : QImage)
    (hw : img1.width = img2.width) (hh : img1.height = img2.height) (q : Int × Int)
    (h : ∀ x y : Int, q.1 ≤ x → x < q.1 + 4 → q.2 ≤ y → y < q.2 + 4 →
      img1.valid x y = true →
      qRed (img1.pixel x y) = qRed (img2.pixel x y) ∧
      qGreen (img1.pixel x y) = qGreen (img2.pixel x y) ∧
      qBlue (img1.pixel x y) = qBlue (img2.pixel x y)) :
    leafDirty W H m img1 q = leafDirty W H m img2 q := by
  have hpix : ∀ i j : Int, 0 ≤ i → i < 4 → 0 ≤ j → j < 4 →
      isDifference m (img1.pixel (q.1 + i) (q.2 + j)) =
        isDifference m (img2.pixel (q.1 + i) (q.2 + j)) := by
    intro i j hi0 hi hj0 hj
    have hvalid : img2.valid (q.1 + i) (q.2 + j) = img1.valid (q.1 + i) (q.2 + j) := by
      simp only [QImage.valid, hw, hh]
    by_cases hv : img1.valid (q.1 + i) (q.2 + j) = true
    · obtain ⟨hr, hg, hb⟩ := h (q.1 + i) (q.2 + j) (by omega) (by omega) (by omega)
        (by omega) hv
      exact isDifference_congr m _ _ hr hg hb
    · have hv2 : ¬ img2.valid (q.1 + i) (q.2 + j) = true := by
        rw [hvalid]
        exact hv
      simp only [QImage.pixel, hv, hv2, Bool.false_eq_true, if_false]
  have hleaf : leafHasDifference m img1 q.1 q.2 = leafHasDifference m img2 q.1 q.2 := by
    rw [Bool.eq_iff_iff, leafHasDifference_iff, leafHasDifference_iff]
    constructor
    · rintro ⟨i, j, hi0, hi, hj0, hj, hd⟩
      exact ⟨i, j, hi0, hi, hj0, hj, by rw [← hpix i j hi0 hi hj0 hj]; exact hd⟩
    · rintro ⟨i, j, hi0, hi, hj0, hj, hd⟩
      exact ⟨i, j, hi0, hi, hj0, hj, by rw [hpix i j hi0 hi hj0 hj]; exact hd⟩
  simp only [leafDirty, hleaf]

/-- C19: the report depends only on the scanned part of the image.  When a location is
reported for the current frame, with LCU `c`, leaf `p` and the leaves `pre` of `c` before `p`
in quadrant order, every image of the frame size that has the same R, G and B values on the
pixels of the earlier LCUs, of the leaves `pre` and of the leaf `p` gives the same report,
whatever its other pixels and its alpha channel are. -/
theorem C19_depends_on_scanned_prefix (env : Env) (self : videoHandlerDifference)
    (img2 : QImage) (fuel : Nat) (infoList : List infoItem)
    (hv : inputsValid env self = true) (hc : self.codingOrder = CodingOrder_HEVC)
    (hw : self.currentFrame.toImage.width = self.frameSize.width)
    (hh : self.currentFrame.toImage.height = self.frameSize.height)
    (hw2 : img2.width = self.frameSize.width) (hh2 : img2.height = self.frameSize.height)
    (hf : 5 ≤ fuel)
    (hrep : ∃ lcu firstX firstY partIndex : Int,
      reportFirstDifferencePosition env self fuel infoList =
        some (infoList ++ locationReport lcu firstX firstY partIndex)) :
    ∃ (c : Int × Int) (pre : List (Int × Int)) (p : Int × Int) (post : List (Int × Int)),
      reportFirstDifferencePosition env self fuel infoList =
        some (infoList ++
          [infoItem.mk "First Difference LCU"
             (QString.number (c.2 * ((self.frameSize.width + 63) / 64) + c.1)),
           infoItem.mk "First Difference X" (QString.number p.1),
           infoItem.mk "First Difference Y" (QString.number p.2),
           infoItem.mk "First Difference partIndex"
             (QString.number (countInFrame self.frameSize.width self.frameSize.height pre))]) ∧
      zLeaves 4 (c.1 * 64) (c.2 * 64) = pre ++ p :: post ∧
      ((∀ x y : Int, 0 ≤ x → x < self.frameSize.width → 0 ≤ y → y < self.frameSize.height →
          (y / 64 * ((self.frameSize.width + 63) / 64) + x / 64 <
              c.2 * ((self.frameSize.width + 63) / 64) + c.1 ∨
            (x / 64 = c.1 ∧ y / 64 = c.2 ∧
              ((x - x % 4, y - y % 4) ∈ pre ∨ (x - x % 4, y - y % 4) = p))) →
          qRed (self.currentFrame.toImage.pixel x y) = qRed (img2.pixel x y) ∧
          qGreen (self.currentFrame.toImage.pixel x y) = qGreen (img2.pixel x y) ∧
          qBlue (self.currentFrame.toImage.pixel x y) = qBlue (img2.pixel x y)) →
        reportFirstDifferencePosition env { self with currentFrame := ⟨img2⟩ } fuel infoList =
          reportFirstDifferencePosition env self fuel infoList) := by
  obtain ⟨c, as, bs, pre, p, post, h1, h2, h3, h4, h5⟩ :=
    report_split_exists env self fuel infoList hv hc hw hh hf hrep
  have hreport := report_of_split env self fuel infoList hv hc hw hh hf c as bs pre p post
    h1 h2 h3 h4 h5
  have hW0 : 0 ≤ self.frameSize.width := by
    rw [← hw]
    exact Int.ofNat_nonneg _
  have ewL : cdiv (self.frameSize.width + 63) 64 = (self.frameSize.width + 63) / 64 :=
    cdiv_of_nonneg (by omega) (by norm_num)
  have hcm : c ∈ lcuOrder (cdiv (self.frameSize.width + 63) 64)
      (cdiv (self.frameSize.height + 63) 64) := by
    rw [h1]
    simp
  have hcm' := (mem_lcuOrder _ _ c).mp hcm
  have hsorted := lcuOrder_pairwise (cdiv (self.frameSize.width + 63) 64)
    (cdiv (self.frameSize.height + 63) 64)
  rw [h1, List.pairwise_append] at hsorted
  have hbefore : ∀ a ∈ as, lcuIndex (cdiv (self.frameSize.width + 63) 64) a <
      lcuIndex (cdiv (self.frameSize.width + 63) 64) c :=
    fun a ha => hsorted.2.2 a ha c (List.mem_cons_self _ _)
  refine ⟨c, pre, p, post, ?_, h3, ?_⟩
  · rw [hreport, ewL]
    rfl
  · intro hagree
    have hdw : self.currentFrame.toImage.width = img2.width := by rw [hw, hw2]
    have hdh : self.currentFrame.toImage.height = img2.height := by rw [hh, hh2]
    have hvalid : ∀ x y : Int, self.currentFrame.toImage.valid x y = true →
        0 ≤ x ∧ x < self.frameSize.width ∧ 0 ≤ y ∧ y < self.frameSize.height := by
      intro x y hxy
      simp only [QImage.valid, Bool.and_eq_true, decide_eq_true_eq] at hxy
      omega
    have hleaf : ∀ q, (q ∈ pre ∨ q = p) →
        leafDirty self.frameSize.width self.frameSize.height self.markDifference
          self.currentFrame.toImage q =
        leafDirty self.frameSize.width self.frameSize.height self.markDifference img2 q := by
      intro q hq
      have hqm : q ∈ zLeaves 4 (c.1 * 64) (c.2 * 64) := by
        rw [h3]
        rcases hq with h | h
        · exact List.mem_append_left _ h
        · rw [h]
          simp
      have hz := zLeaves_lcu c q hqm
      apply leafDirty_congr _ _ _ _ _ hdw hdh
      intro x y hx1 hx2 hy1 hy2 hxy
      obtain ⟨b1, b2, b3, b4⟩ := hvalid x y hxy
      apply hagree x y b1 b2 b3 b4
      right
      have eq : (x - x % 4, y - y % 4) = q :=
        Prod.ext (by simp only []; omega) (by simp only []; omega)
      refine ⟨by omega, by omega, ?_⟩
      rw [eq]
      exact hq
    have hlcu : ∀ a ∈ as,
        lcuDirty self.frameSize.width self.frameSize.height self.markDifference img2 a =
          false := by
      intro a ha
      have ham : a ∈ lcuOrder (cdiv (self.frameSize.width + 63) 64)
          (cdiv (self.frameSize.height + 63) 64) := by
        rw [h1]
        exact List.mem_append_left _ ha
      have ham' := (mem_lcuOrder _ _ a).mp ham
      have hlt := hbefore a ha
      simp only [lcuIndex, ewL] at hlt
      have hold := h2 a ha
      unfold lcuDirty at hold ⊢
      rw [Bool.eq_false_iff] at hold ⊢
      intro hany
      apply hold
      obtain ⟨q, hqm, hqd⟩ := List.any_eq_true.mp hany
      refine List.any_eq_true.mpr ⟨q, hqm, ?_⟩
      rw [← hqd]
      have hz := zLeaves_lcu a q hqm
      apply leafDirty_congr _ _ _ _ _ hdw hdh
      intro x y hx1 hx2 hy1 hy2 hxy
      obtain ⟨b1, b2, b3, b4⟩ := hvalid x y hxy
      apply hagree x y b1 b2 b3 b4
      left
      have e1 : x / 64 = a.1 := by omega
      have e2 : y / 64 = a.2 := by omega
      rw [e1, e2]
      exact hlt
    have h4' : ∀ q ∈ pre,
        leafDirty self.frameSize.width self.frameSize.height self.markDifference img2 q =
          false := by
      intro q hq
      rw [← hleaf q (Or.inl hq)]
      exact h4 q hq
    have h5' : leafDirty self.frameSize.width self.frameSize.height self.markDifference img2 p
        = true := by
      rw [← hleaf p (Or.inr rfl)]
      exact h5
    rw [hreport]
    exact report_of_split env { self with currentFrame := ⟨img2⟩ } fuel infoList hv hc hw2 hh2
      hf c as bs pre p post h1 hlcu h3 h4' h5'

/-- Witness for C19: an 8x8 frame whose only differing pixel is (7, 7), compared with the
image of the same colours and a zero alpha channel. -/
theorem C19_depends_on_scanned_prefix_witness :
    ∃ (c : Int × Int) (pre : List (Int × Int)) (p : Int × Int) (post : List (Int × Int)),
      reportFirstDifferencePosition exampleEnv (exampleHandler 8 8 false (onePixel 7 7)) 5 [] =
        some ([] ++
          [infoItem.mk "First Difference LCU"
             (QString.number (c.2 *
               (((exampleHandler 8 8 false (onePixel 7 7)).frameSize.width + 63) / 64) + c.1)),
           infoItem.mk "First Difference X" (QString.number p.1),
           infoItem.mk "First Difference Y" (QString.number p.2),
           infoItem.mk "First Difference partIndex"
             (QString.number
               (countInFrame (exampleHandler 8 8 false (onePixel 7 7)).frameSize.width
                 (exampleHandler 8 8 false (onePixel 7 7)).frameSize.height pre))]) ∧
      zLeaves 4 (c.1 * 64) (c.2 * 64) = pre ++ p :: post ∧
      ((∀ x y : Int, 0 ≤ x →
          x < (exampleHandler 8 8 false (onePixel 7 7)).frameSize.width → 0 ≤ y →
          y < (exampleHandler 8 8 false (onePixel 7 7)).frameSize.height →
          (y / 64 * (((exampleHandler 8 8 false (onePixel 7 7)).frameSize.width + 63) / 64)
                + x / 64 <
              c.2 * (((exampleHandler 8 8 false (onePixel 7 7)).frameSize.width + 63) / 64)
                + c.1 ∨
            (x / 64 = c.1 ∧ y / 64 = c.2 ∧
              ((x - x % 4, y - y % 4) ∈ pre ∨ (x - x % 4, y - y % 4) = p))) →
          qRed ((exampleHandler 8 8 false (onePixel 7 7)).currentFrame.toImage.pixel x y) =
            qRed ((QImage.mk 8 8 (onePixelClear 7 7)).pixel x y) ∧
          qGreen ((exampleHandler 8 8 false (onePixel 7 7)).currentFrame.toImage.pixel x y) =
            qGreen ((QImage.mk 8 8 (onePixelClear 7 7)).pixel x y) ∧
          qBlue ((exampleHandler 8 8 false (onePixel 7 7)).currentFrame.toImage.pixel x y) =
            qBlue ((QImage.mk 8 8 (onePixelClear 7 7)).pixel x y)) →
        reportFirstDifferencePosition exampleEnv
            { exampleHandler 8 8 false (onePixel 7 7) with
              currentFrame := ⟨QImage.mk 8 8 (onePixelClear 7 7)⟩ } 5 [] =
          reportFirstDifferencePosition exampleEnv (exampleHandler 8 8 false (onePixel 7 7))
            5 []) :=
  C19_depends_on_scanned_prefix exampleEnv (exampleHandler 8 8 false (onePixel 7 7))
    (QImage.mk 8 8 (onePixelClear 7 7)) 5 [] (by decide) (by decide) (by decide) (by decide)
    (by decide) (by decide) (by decide) ⟨0, 4, 4, 3, by decide⟩

end YUView
